import Mathlib

/-!
Shallow embedding of the play queue of src/src/Queue.cxx (struct queue), with
theorems checking the specification claims about it.  The item array, the
order array and the id_to_position array are C buffers of fixed size; they are
modelled as total functions from natural numbers, with the live region given
by the length field, so that stale entries beyond the live region persist
exactly as they do in the C arrays.  Machine arithmetic that can wrap
(unsigned 32 bit) is made explicit through uadd and usub.  Calls into the
random number generator are modelled by oracle parameters: each value drawn
from a uniform_int_distribution over a window is represented as an arbitrary
natural number reduced modulo the window size.
-/

namespace MpdQueue

/-- Unsigned 32 bit wrap-around addition, as computed on C unsigned operands. -/
def uadd (a b : Nat) : Nat := (a + b) % 2 ^ 32

/-- Unsigned 32 bit wrap-around subtraction, as computed on C unsigned operands. -/
def usub (a b : Nat) : Nat := (a % 2 ^ 32 + (2 ^ 32 - b % 2 ^ 32)) % 2 ^ 32

/-- One entry of the item store: struct queue_item, with the song handle
abstracted as a natural number token. -/
structure QItem where
  song : Nat
  id : Nat
  version : Nat
  priority : Nat
deriving DecidableEq

/-- The queue state of Queue.cxx.  The field repeatFlag renders the source
field named repeat, which is a reserved word here. -/
@[ext]
structure Queue where
  max_length : Nat
  length : Nat
  version : Nat
  items : Nat → QItem
  order : Nat → Nat
  id_to_position : Nat → Int
  repeatFlag : Bool
  single : Bool
  consume : Bool
  random : Bool

/-- The queue constructor: length 0, version 1, all id_to_position slots set
to the sentinel -1; the uninitialised item and order buffers are rendered as
constant functions. -/
def Queue.init (m : Nat) : Queue :=
  { max_length := m, length := 0, version := 1,
    items := fun _ => ⟨0, 0, 0, 0⟩, order := fun _ => 0,
    id_to_position := fun _ => -1,
    repeatFlag := false, single := false, consume := false, random := false }

/-- Modelled from the spec: the order-to-position query of the query surface
(the header Queue.hxx is not under src); it reads the order array. -/
def Queue.OrderToPosition (q : Queue) (o : Nat) : Nat := q.order o

/-- Modelled from the spec: the position-to-order query of the query surface
(the header Queue.hxx is not under src); it returns the first order index
whose order entry is the given position, or the length when there is none. -/
def Queue.PositionToOrder (q : Queue) (position : Nat) : Nat :=
  match (List.range q.length).find? (fun i => q.order i == position) with
  | some k => k
  | none => q.length

/-- Modelled from the spec: the capacity test backing the Append precondition
(the header Queue.hxx is not under src). -/
def Queue.IsFull (q : Queue) : Bool := q.max_length ≤ q.length

/-- Modelled from the spec: the position-to-id query of the query surface
(the header Queue.hxx is not under src); it reads the item id. -/
def Queue.PositionToId (q : Queue) (position : Nat) : Nat := (q.items position).id

/-- Modelled from the spec: exchange of two order array entries, used by the
shuffle operations (the header Queue.hxx is not under src). -/
def Queue.SwapOrders (q : Queue) (o1 o2 : Nat) : Queue :=
  { q with order := fun i =>
      if i = o1 then q.order o2
      else if i = o2 then q.order o1
      else q.order i }

/-- queue GetNextOrder: the pure next-song selector.  Result -1 stands for the
end of the queue. -/
def Queue.GetNextOrder (q : Queue) (o : Nat) : Int :=
  if q.single && q.repeatFlag && !q.consume then (o : Int)
  else if o + 1 < q.length then (o : Int) + 1
  else if q.repeatFlag && (decide (0 < o) || !q.consume) then 0
  else -1

/-- The static constant named max in queue IncrementVersion. -/
def versionMax : Nat := 2 ^ 31 - 1

/-- queue IncrementVersion: bump the version counter; when it reaches the
ceiling, reset every live item stamp to 0 and restart the counter at 1. -/
def Queue.IncrementVersion (q : Queue) : Queue :=
  let v := (q.version + 1) % 2 ^ 32
  if versionMax ≤ v then
    { q with version := 1,
             items := fun i =>
               if i < q.length then { q.items i with version := 0 }
               else q.items i }
  else { q with version := v }

/-- queue ModifyAtOrder: stamp the item at the given order index, then bump
the version counter. -/
def Queue.ModifyAtOrder (q : Queue) (o : Nat) : Queue :=
  let position := q.order o
  let q1 := { q with items := (Function.update q.items position
                { q.items position with version := q.version }) }
  q1.IncrementVersion

/-- queue ModifyAll: stamp every live item, then bump the version counter. -/
def Queue.ModifyAll (q : Queue) : Queue :=
  let q1 := { q with items := fun i =>
                if i < q.length then { q.items i with version := q.version }
                else q.items i }
  q1.IncrementVersion

/-- song_dup_detached: the detached copy of a song handle; on the abstract
token model it preserves the token. -/
def song_dup_detached (s : Nat) : Nat := s

/-- queue Append.  The identifier produced by queue_generate_id is passed in
as the argument id, because the generator advances a process-wide static
cursor; its guarantee, that the chosen id slot is unused, is a precondition
of the operation. -/
def Queue.Append (q : Queue) (song priority id : Nat) : Nat × Queue :=
  (id,
   { q with
     items := (Function.update q.items q.length
       { song := song_dup_detached song, id := id,
         version := q.version, priority := priority }),
     order := Function.update q.order q.length q.length,
     id_to_position := Function.update q.id_to_position id (q.length : Int),
     length := q.length + 1 })

/-- The recoverable error taxonomy of the spec. -/
inductive QueueError where
  | QueueFull
deriving DecidableEq

/-- Modelled from the spec: the caller-side capacity check of the Append
contract (Fails with QueueFull if at capacity).  The check lives in the
playlist layer, which is not under src; per the spec it is performed before
any mutation, so on failure the state is returned untouched. -/
def Queue.AppendChecked (q : Queue) (song priority id : Nat) :
    Except QueueError Nat × Queue :=
  if q.IsFull then (Except.error QueueError.QueueFull, q)
  else
    let r := q.Append song priority id
    (Except.ok r.1, r.2)

/-- queue SwapPositions: exchange two items, stamp both with the current
version, and update both id_to_position entries. -/
def Queue.SwapPositions (q : Queue) (position1 position2 : Nat) : Queue :=
  let id1 := (q.items position1).id
  let id2 := (q.items position2).id
  { q with
    items := fun i =>
      if i = position1 then { q.items position2 with version := q.version }
      else if i = position2 then { q.items position1 with version := q.version }
      else q.items i,
    id_to_position :=
      (Function.update (Function.update q.id_to_position id1 (position2 : Int))
        id2 (position1 : Int)) }

/-- queue_move_song_to: copy the item at from_ into slot to_, stamping it and
rebinding its id. -/
def queue_move_song_to (q : Queue) (from_ to_ : Nat) : Queue :=
  let from_id := (q.items from_).id
  { q with
    items := Function.update q.items to_ ({ q.items from_ with version := q.version }),
    id_to_position := Function.update q.id_to_position from_id (to_ : Int) }

/-- The item-moving phase of MovePostion: the two shifting loops of the
source, rendered as folds over the exact index sequences the C loops
traverse, followed by placing the saved item at its destination. -/
def movePostionItemsPhase (q : Queue) (from_ to_ : Nat) : Queue :=
  let item := q.items from_
  let q1 := (List.range' from_ (to_ - from_)).foldl
    (fun s i => queue_move_song_to s (i + 1) i) q
  let q2 := ((List.range' (to_ + 1) (from_ - to_)).reverse).foldl
    (fun s i => queue_move_song_to s (i - 1) i) q1
  { q2 with
    id_to_position := Function.update q2.id_to_position item.id (to_ : Int),
    items := Function.update q2.items to_ ({ item with version := q2.version }) }

/-- queue MovePostion (the source spells the name this way): move one item,
shifting the items in between by one slot, and rewrite the order array in
random mode. -/
def Queue.MovePostion (q : Queue) (from_ to_ : Nat) : Queue :=
  let q3 := movePostionItemsPhase q from_ to_
  if q.random then
    { q3 with order := fun i =>
        if i < q3.length then
          (if from_ < q3.order i ∧ q3.order i ≤ to_ then usub (q3.order i) 1
           else if q3.order i < from_ ∧ to_ ≤ q3.order i then uadd (q3.order i) 1
           else if from_ = q3.order i then to_
           else q3.order i)
        else q3.order i }
  else q3

/-- The item-moving phase of MoveRange: the first fold renders the upward
shifting loop of the source (runs when to_ is larger than start), the second
the downward one (runs when to_ is smaller; the C loop guard on wrap-around
to G_MAXUINT makes it cover exactly the indices from start - 1 down to to_,
and nothing when start is 0, which the reversed range reproduces), the third
the write-back of the saved block. -/
def moveRangeItemsPhase (q : Queue) (start end_ to_ : Nat) : Queue :=
  let tmp : Nat → QItem := fun k => q.items (start + k)
  let q1 := (List.range' end_ (to_ - start)).foldl
    (fun s i => queue_move_song_to s i (start + i - end_)) q
  let q2 := ((List.range' to_ (start - to_)).reverse).foldl
    (fun s i => queue_move_song_to s i (i + end_ - start)) q1
  (List.range' start (end_ - start)).foldl
    (fun s i =>
      { s with
        id_to_position := (Function.update s.id_to_position (tmp (i - start)).id
          ((to_ + i - start : Nat) : Int)),
        items := (Function.update s.items (to_ + i - start)
          { tmp (i - start) with version := s.version }) }) q2

/-- queue MoveRange: move the block of positions from start up to end_ so
that it begins at to_, and rewrite the order array in random mode.  The
unsigned wrap in the last order rewrite case is kept explicit through uadd
and usub. -/
def Queue.MoveRange (q : Queue) (start end_ to_ : Nat) : Queue :=
  let q3 := moveRangeItemsPhase q start end_ to_
  if q.random then
    { q3 with order := fun i =>
        if i < q3.length then
          (if end_ ≤ q3.order i ∧ q3.order i < to_ + end_ - start then
             usub (q3.order i) (usub end_ start)
           else if q3.order i < start ∧ to_ ≤ q3.order i then
             uadd (q3.order i) (usub end_ start)
           else if start ≤ q3.order i ∧ q3.order i < end_ then
             uadd (q3.order i) (usub to_ start)
           else q3.order i)
        else q3.order i }
  else q3

/-- queue_move_order: move one entry of the order array from from_order to
to_order, shifting the entries in between. -/
def queue_move_order (q : Queue) (from_order to_order : Nat) : Queue :=
  let from_position := q.OrderToPosition from_order
  if from_order < to_order then
    { q with order := fun i =>
        if from_order ≤ i ∧ i < to_order then q.order (i + 1)
        else if i = to_order then from_position
        else q.order i }
  else
    { q with order := fun i =>
        if to_order < i ∧ i ≤ from_order then q.order (i - 1)
        else if i = to_order then from_position
        else q.order i }

/-- The id-release and item-shifting phase of DeletePosition: release the
id, decrement the length and shift the items above the deleted position
down by one slot. -/
def deletePositionItemsPhase (q : Queue) (position : Nat) : Queue :=
  let id := q.PositionToId position
  let len' := q.length - 1
  let q1 := { q with length := len',
                     id_to_position := Function.update q.id_to_position id (-1) }
  (List.range' position (len' - position)).foldl
    (fun s i => queue_move_song_to s (i + 1) i) q1

/-- queue DeletePosition: free the song, release the id, shift the later
items down, remove the order entry and renumber the order entries above the
deleted position. -/
def Queue.DeletePosition (q : Queue) (position : Nat) : Queue :=
  let ord := q.PositionToOrder position
  let len' := q.length - 1
  let q2 := deletePositionItemsPhase q position
  let order1 : Nat → Nat := fun i =>
    if ord ≤ i ∧ i < len' then q2.order (i + 1) else q2.order i
  let order2 : Nat → Nat := fun i =>
    if i < len' ∧ position < order1 i then usub (order1 i) 1 else order1 i
  { q2 with order := order2 }

/-- queue Clear: release every live id and set the length to 0; mode flags
and version counter are untouched. -/
def Queue.Clear (q : Queue) : Queue :=
  let m := (List.range q.length).foldl
    (fun m i => Function.update m (q.items i).id (-1)) q.id_to_position
  { q with id_to_position := m, length := 0 }

/-- The comparator queue_item_compare_order_priority as a relation on
positions: a sorts no later than b when the priority of a is at least the
priority of b (descending order). -/
def prioGE (q : Queue) (a b : Nat) : Prop :=
  (q.items b).priority ≤ (q.items a).priority

instance (q : Queue) : DecidableRel (prioGE q) := fun a b =>
  inferInstanceAs (Decidable ((q.items b).priority ≤ (q.items a).priority))

instance (q : Queue) : IsTotal Nat (prioGE q) :=
  ⟨fun a b => Nat.le_total (q.items b).priority (q.items a).priority⟩

instance (q : Queue) : IsTrans Nat (prioGE q) :=
  ⟨fun _ _ _ h1 h2 => Nat.le_trans h2 h1⟩

/-- queue_sort_order_by_priority.  The source hands the order slice to
g_qsort_with_data with the descending priority comparator; the sorting
algorithm itself is unspecified and unstable, so it is modelled as an
insertion sort with the same comparator: any comparator-correct sort yields
a permutation of the slice that is non-increasing in priority, which is all
the queue relies on. -/
def queue_sort_order_by_priority (q : Queue) (start end_ : Nat) : Queue :=
  let slice := (List.range' start (end_ - start)).map q.order
  let sorted := List.insertionSort (prioGE q) slice
  { q with order := fun i =>
      if start ≤ i ∧ i < end_ then sorted.getD (i - start) 0 else q.order i }

/-- queue ShuffleOrderRange: std shuffle of the order slice, rendered as the
Fisher-Yates swap sequence with the random draws supplied by the oracle g;
the draw for step i is reduced modulo i + 1, the size of the draw window. -/
def Queue.ShuffleOrderRange (q : Queue) (start end_ : Nat) (g : Nat → Nat) : Queue :=
  ((List.range' 1 (end_ - start - 1)).reverse).foldl
    (fun s i => s.SwapOrders (start + i) (start + g i % (i + 1))) q

/-- queue ShuffleOrderRangeWithPriority: sort the order slice by descending
priority, then shuffle each maximal constant-priority group; the fold state
carries the current queue, the start of the open group and its priority.
The oracle g supplies, per group start, the draws of that group shuffle. -/
def Queue.ShuffleOrderRangeWithPriority (q : Queue) (start end_ : Nat)
    (g : Nat → Nat → Nat) : Queue :=
  if start = end_ then q
  else
    let q1 := queue_sort_order_by_priority q start end_
    let st := (List.range' (start + 1) (end_ - start - 1)).foldl
      (fun (st : Queue × Nat × Nat) i =>
        let priority := (st.1.items (st.1.order i)).priority
        if priority ≠ st.2.2 then
          (st.1.ShuffleOrderRange st.2.1 i (g st.2.1), i, priority)
        else st)
      (q1, start, (q1.items (q1.order start)).priority)
    st.1.ShuffleOrderRange st.2.1 end_ (g st.2.1)

/-- queue ShuffleOrder: priority-aware shuffle of the whole order array. -/
def Queue.ShuffleOrder (q : Queue) (g : Nat → Nat → Nat) : Queue :=
  q.ShuffleOrderRangeWithPriority 0 q.length g

/-- queue ShuffleOrderFirst: swap the first slot of the window with a
uniform partner in the window; the uniform_int_distribution draw over
start..end_ - 1 is modelled as the oracle value reduced modulo the window
size. -/
def Queue.ShuffleOrderFirst (q : Queue) (start end_ : Nat) (pick : Nat) : Queue :=
  q.SwapOrders start (start + pick % (end_ - start))

/-- queue ShuffleOrderLast: swap the last slot of the window with a uniform
partner in the window, the draw modelled as for ShuffleOrderFirst. -/
def Queue.ShuffleOrderLast (q : Queue) (start end_ : Nat) (pick : Nat) : Queue :=
  q.SwapOrders (end_ - 1) (start + pick % (end_ - start))

/-- queue ShuffleRange: for each position of the window, swap it with a
uniform partner in the window, the draws modelled as for ShuffleOrderFirst. -/
def Queue.ShuffleRange (q : Queue) (start end_ : Nat) (g : Nat → Nat) : Queue :=
  (List.range' start (end_ - start)).foldl
    (fun s i => s.SwapPositions i (start + g i % (end_ - start))) q

/-- queue_find_priority_order: the first order index at or after start_order
whose item priority is at most the given priority, excluding exclude_order;
the length when there is none. -/
def queue_find_priority_order (q : Queue) (start_order priority exclude_order : Nat) : Nat :=
  match (List.range' start_order (q.length - start_order)).find?
      (fun o => decide ((q.items (q.order o)).priority ≤ priority) &&
                decide (o ≠ exclude_order)) with
  | some o => o
  | none => q.length

/-- queue_count_same_priority: the number of consecutive order entries from
start_order whose item priority equals the given priority. -/
def queue_count_same_priority (q : Queue) (start_order priority : Nat) : Nat :=
  match (List.range' start_order (q.length - start_order)).find?
      (fun o => decide ((q.items (q.order o)).priority ≠ priority)) with
  | some o => o - start_order
  | none => q.length - start_order

/-- queue SetPriority: update the priority and stamp the item; in random mode
reposition the item at the head of its new priority group, subject to the
after_order rules, then apply one random swap within the group.  The oracle
pick supplies the draw of that final swap. -/
def Queue.SetPriority (q : Queue) (position priority : Nat) (after_order : Int)
    (pick : Nat) : Bool × Queue :=
  let item := q.items position
  let old_priority := item.priority
  if old_priority = priority then (false, q)
  else
    let q1 := { q with items := (Function.update q.items position
                  { item with version := q.version, priority := priority }) }
    if !q.random then (true, q1)
    else
      let ord := q1.PositionToOrder position
      if 0 ≤ after_order ∧ ord = after_order.toNat then (true, q1)
      else if 0 ≤ after_order ∧ ord < after_order.toNat ∧
              (let after_item := q1.items (q1.OrderToPosition after_order.toNat)
               after_item.priority < old_priority ∨ priority ≤ after_item.priority) then
        (true, q1)
      else
        let before_order := queue_find_priority_order q1 (after_order + 1).toNat priority ord
        let new_order := if ord < before_order then before_order - 1 else before_order
        let q2 := queue_move_order q1 ord new_order
        let priority_count := queue_count_same_priority q2 new_order priority
        (true, q2.ShuffleOrderFirst new_order (new_order + priority_count) pick)

/-- queue SetPriorityRange: apply SetPriority to every position of the
window, re-deriving after_order on each iteration from the tracked
after_position through the possibly mutated order array.  The oracle picks
supplies, per position, the draw of the inner SetPriority. -/
def Queue.SetPriorityRange (q : Queue) (start_position end_position priority : Nat)
    (after_order : Int) (picks : Nat → Nat) : Bool × Queue :=
  let after_position : Int :=
    if 0 ≤ after_order then (q.OrderToPosition after_order.toNat : Int) else -1
  (List.range' start_position (end_position - start_position)).foldl
    (fun (st : Bool × Queue) i =>
      let ao : Int :=
        if 0 ≤ after_position then (st.2.PositionToOrder after_position.toNat : Int) else -1
      let r := st.2.SetPriority i priority ao (picks i)
      (st.1 || r.1, r.2))
    (false, q)

/-- The public mutating operations of claim C1, with the random draws they
consume carried as oracle data. -/
inductive Op where
  | append (song priority id : Nat)
  | deletePosition (p : Nat)
  | clear
  | swapPositions (p1 p2 : Nat)
  | movePosition (from_ to_ : Nat)
  | moveRange (start end_ to_ : Nat)
  | setPriority (p priority : Nat) (after : Int) (pick : Nat)
  | setPriorityRange (s e priority : Nat) (after : Int) (picks : Nat → Nat)
  | shuffleRange (s e : Nat) (g : Nat → Nat)
  | shuffleOrderRangeWithPriority (s e : Nat) (g : Nat → Nat → Nat)
  | shuffleOrderFirst (s e pick : Nat)
  | shuffleOrderLast (s e pick : Nat)

/-- State transition of one public operation (returned values dropped). -/
def Op.apply (op : Op) (q : Queue) : Queue :=
  match op with
  | .append song priority id => (q.Append song priority id).2
  | .deletePosition p => q.DeletePosition p
  | .clear => q.Clear
  | .swapPositions p1 p2 => q.SwapPositions p1 p2
  | .movePosition f t => q.MovePostion f t
  | .moveRange s e t => q.MoveRange s e t
  | .setPriority p pr a pk => (q.SetPriority p pr a pk).2
  | .setPriorityRange s e pr a pks => (q.SetPriorityRange s e pr a pks).2
  | .shuffleRange s e g => q.ShuffleRange s e g
  | .shuffleOrderRangeWithPriority s e g => q.ShuffleOrderRangeWithPriority s e g
  | .shuffleOrderFirst s e pk => q.ShuffleOrderFirst s e pk
  | .shuffleOrderLast s e pk => q.ShuffleOrderLast s e pk

/-- Executable precondition of one public operation: the asserts of the
source and the contracts of the spec, plus, for the operations whose order
rewrite uses wrap-around arithmetic, the machine-width bound under which an
unsigned index computation cannot overflow. -/
def Op.preb (op : Op) (q : Queue) : Bool :=
  match op with
  | .append _ _ id => !q.IsFull && (q.id_to_position id == -1)
  | .deletePosition p => decide (p < q.length) && decide (q.length < 2 ^ 31)
  | .clear => true
  | .swapPositions p1 p2 => decide (p1 < q.length) && decide (p2 < q.length)
  | .movePosition f t =>
      decide (f < q.length) && decide (t < q.length) && decide (q.length < 2 ^ 31)
  | .moveRange s e t =>
      decide (s ≤ e) && decide (e ≤ q.length) && decide (t + (e - s) ≤ q.length) &&
      decide (q.length < 2 ^ 31)
  | .setPriority p _ a _ =>
      decide (p < q.length) && decide (-1 ≤ a) && decide (a < (q.length : Int))
  | .setPriorityRange s e _ a _ =>
      decide (s ≤ e) && decide (e ≤ q.length) && decide (-1 ≤ a) &&
      decide (a < (q.length : Int))
  | .shuffleRange s e _ => decide (s ≤ e) && decide (e ≤ q.length)
  | .shuffleOrderRangeWithPriority s e _ =>
      q.random && decide (s ≤ e) && decide (e ≤ q.length)
  | .shuffleOrderFirst s e _ => decide (s < e) && decide (e ≤ q.length)
  | .shuffleOrderLast s e _ => decide (s < e) && decide (e ≤ q.length)

/-- Run a sequence of public operations. -/
def applySeq (ops : List Op) (q : Queue) : Queue :=
  ops.foldl (fun s op => op.apply s) q

/-- All preconditions hold along the run of the sequence. -/
def preAll (ops : List Op) (q : Queue) : Bool :=
  match ops with
  | [] => true
  | op :: rest => op.preb q && preAll rest (op.apply q)

/-- A function is a permutation of 0..n-1 on the first n slots: its image
list over those slots is a permutation of the range list. -/
def PermOn (f : Nat → Nat) (n : Nat) : Prop :=
  ((List.range n).map f).Perm (List.range n)

/-- Invariant 4 of the spec: the order array restricted to indices up to
length - 1 is a permutation of the set 0..length-1. -/
def OrderInv (q : Queue) : Prop := PermOn q.order q.length

instance (f : Nat → Nat) (n : Nat) : Decidable (PermOn f n) :=
  inferInstanceAs (Decidable (List.Perm _ _))

instance (q : Queue) : Decidable (OrderInv q) :=
  inferInstanceAs (Decidable (PermOn _ _))

/-- The priority of the item at a given order index. -/
def prioAt (q : Queue) (k : Nat) : Nat := (q.items (q.order k)).priority

/-- Pointwise form of PermOn: bounded and injective on the first n slots. -/
def IsPermBelow (f : Nat → Nat) (n : Nat) : Prop :=
  (∀ i, i < n → f i < n) ∧ (∀ i j, i < n → j < n → f i = f j → i = j)

/-- The slot transposition underlying SwapOrders. -/
def swapFn (a b i : Nat) : Nat := if i = a then b else if i = b then a else i

/-- The order array value rewrite of MovePostion in random mode, in plain
natural arithmetic. -/
def movePosRho (from_ to_ x : Nat) : Nat :=
  if from_ < x ∧ x ≤ to_ then x - 1
  else if x < from_ ∧ to_ ≤ x then x + 1
  else if from_ = x then to_
  else x

/-- The order array value rewrite of MoveRange in random mode, in plain
natural arithmetic. -/
def moveRangeRho (start end_ to_ x : Nat) : Nat :=
  if end_ ≤ x ∧ x < to_ + end_ - start then x - (end_ - start)
  else if x < start ∧ to_ ≤ x then x + (end_ - start)
  else if start ≤ x ∧ x < end_ then x + to_ - start
  else x

/-- The slot relocation underlying queue_move_order. -/
def moveOrderSigma (from_order to_order i : Nat) : Nat :=
  if from_order < to_order then
    (if from_order ≤ i ∧ i < to_order then i + 1
     else if i = to_order then from_order
     else i)
  else
    (if to_order < i ∧ i ≤ from_order then i - 1
     else if i = to_order then from_order
     else i)

/-- A concrete starting queue for exercising the public operations: an empty
queue of capacity 4 in random mode. -/
def q0w : Queue := { Queue.init 4 with random := true }

/-- A concrete run exercising every public mutating operation of claim C1. -/
def opsW : List Op :=
  [.append 10 0 0, .append 11 5 1, .append 12 3 2,
   .movePosition 0 2, .setPriority 1 5 (-1) 3,
   .moveRange 0 2 1, .shuffleOrderRangeWithPriority 0 3 (fun _ _ => 1),
   .deletePosition 1, .shuffleRange 0 2 (fun _ => 1),
   .shuffleOrderFirst 0 2 1, .shuffleOrderLast 0 2 0,
   .swapPositions 0 1, .setPriorityRange 0 2 9 0 (fun _ => 1), .clear]

/-- The next-selector cascade exactly as the claim states it: four rules,
conditions evaluated top to bottom, first match winning. -/
def nextSpec (repeatF singleF consumeF : Bool) (length o : Nat) : Int :=
  if singleF = true ∧ repeatF = true ∧ consumeF = false then (o : Int)
  else if o + 1 < length then (o : Int) + 1
  else if repeatF = true ∧ (0 < o ∨ consumeF = false) then 0
  else -1

/-- A three-item queue in single-repeat mode (repeat and single set, consume
clear), built by three Appends. -/
def q3sr : Queue :=
  { ((((Queue.init 8).Append 10 0 0).2.Append 11 0 1).2.Append 12 0 2).2 with
    repeatFlag := true, single := true }

/-- A three-item queue with repeat set (non-random), built by three Appends. -/
def q3rep : Queue :=
  { ((((Queue.init 8).Append 10 0 0).2.Append 11 0 1).2.Append 12 0 2).2 with
    repeatFlag := true }

/-- A three-item queue with consume and repeat set, built by three Appends. -/
def q3cr : Queue :=
  { ((((Queue.init 8).Append 10 0 0).2.Append 11 0 1).2.Append 12 0 2).2 with
    repeatFlag := true, consume := true }

/-- A one-item queue with consume and repeat set. -/
def q1cr : Queue :=
  { ((Queue.init 8).Append 10 0 0).2 with repeatFlag := true, consume := true }

/-- The five-item queue A..E (songs 10..14, identifiers 0..4), in either
mode. -/
def q5w (b : Bool) : Queue :=
  ((((({ Queue.init 8 with random := b }).Append 10 0 0).2.Append 11 0 1).2.Append
    12 0 2).2.Append 13 0 3).2.Append 14 0 4 |>.2

/-- A one-item queue with a consistent id map, for exercising MovePostion. -/
def q1w : Queue := ((Queue.init 4).Append 10 0 0).2

/-- A two-item queue: songs 10 and 11, identifiers 0 and 1, both priority 0. -/
def q2w : Queue := (((Queue.init 4).Append 10 0 0).2.Append 11 0 1).2

/-- The one-item queue q1w with its version counter forced to the value two
below the 31-bit ceiling. -/
def qVw : Queue := { q1w with version := 2 ^ 31 - 2 }

/-- A two-item random-mode queue obtained by appending a low-priority song
and then a high-priority one. -/
def q2hi : Queue :=
  ((({ Queue.init 4 with random := true }).Append 10 0 0).2.Append 11 5 1).2

theorem permOn_iff_isPermBelow (f : Nat → Nat) (n : Nat) :
    PermOn f n ↔ IsPermBelow f n := by
  constructor
  · intro h
    constructor
    · intro i hi
      have hm : f i ∈ (List.range n).map f :=
        List.mem_map_of_mem f (List.mem_range.mpr hi)
      exact List.mem_range.mp (h.mem_iff.mp hm)
    · intro i j hi hj hf
      have hnd : ((List.range n).map f).Nodup :=
        (h.nodup_iff).mpr (List.nodup_range n)
      exact List.inj_on_of_nodup_map hnd (List.mem_range.mpr hi)
        (List.mem_range.mpr hj) hf
  · rintro ⟨hb, hinj⟩
    have hnd : ((List.range n).map f).Nodup :=
      List.Nodup.map_on
        (fun i hi j hj hf =>
          hinj i j (List.mem_range.mp hi) (List.mem_range.mp hj) hf)
        (List.nodup_range n)
    have hsub : ((List.range n).map f) ⊆ List.range n := by
      intro x hx
      obtain ⟨i, hi, rfl⟩ := List.mem_map.mp hx
      exact List.mem_range.mpr (hb i (List.mem_range.mp hi))
    exact (List.subperm_of_subset hnd hsub).perm_of_length_le (by simp)

theorem permOn_congr {f g : Nat → Nat} {n : Nat}
    (hfg : ∀ i, i < n → f i = g i) (h : PermOn f n) : PermOn g n := by
  have : (List.range n).map f = (List.range n).map g :=
    List.map_congr_left (fun i hi => hfg i (List.mem_range.mp hi))
  unfold PermOn at h ⊢
  rwa [this] at h

theorem isPermBelow_ext {f g : Nat → Nat} {n : Nat}
    (hfg : ∀ i, i < n → f i = g i) (h : IsPermBelow f n) : IsPermBelow g n := by
  obtain ⟨hb, hinj⟩ := h
  refine ⟨fun i hi => ?_, fun i j hi hj hf => ?_⟩
  · rw [← hfg i hi]; exact hb i hi
  · exact hinj i j hi hj (by rw [hfg i hi, hfg j hj, hf])

/-- Composing a permutation of the slots below n after f preserves PermOn. -/
theorem permOn_comp_inner {f σ : Nat → Nat} {n : Nat}
    (hσ : IsPermBelow σ n) (h : PermOn f n) :
    PermOn (fun i => f (σ i)) n := by
  rw [permOn_iff_isPermBelow] at h ⊢
  obtain ⟨hb, hinj⟩ := h
  obtain ⟨sb, sinj⟩ := hσ
  refine ⟨fun i hi => hb _ (sb i hi), fun i j hi hj hf => ?_⟩
  exact sinj i j hi hj (hinj _ _ (sb i hi) (sb j hj) hf)

/-- Composing a permutation of the values below n before f preserves PermOn. -/
theorem permOn_comp_outer {f ρ : Nat → Nat} {n : Nat}
    (hρ : IsPermBelow ρ n) (h : PermOn f n) :
    PermOn (fun i => ρ (f i)) n := by
  rw [permOn_iff_isPermBelow] at h ⊢
  obtain ⟨hb, hinj⟩ := h
  obtain ⟨rb, rinj⟩ := hρ
  refine ⟨fun i hi => rb _ (hb i hi), fun i j hi hj hf => ?_⟩
  exact hinj i j hi hj (rinj _ _ (hb i hi) (hb j hj) hf)

theorem isPermBelow_swapFn {a b n : Nat} (ha : a < n) (hb : b < n) :
    IsPermBelow (swapFn a b) n := by
  constructor
  · intro i hi
    unfold swapFn
    split_ifs <;> omega
  · intro i j hi hj hf
    unfold swapFn at hf
    split_ifs at hf <;> omega

theorem swapOrders_order (q : Queue) (o1 o2 : Nat) :
    (q.SwapOrders o1 o2).order = fun i => q.order (swapFn o1 o2 i) := by
  funext i
  simp only [Queue.SwapOrders, swapFn]
  split_ifs <;> rfl

theorem orderInv_swapOrders {q : Queue} {o1 o2 : Nat}
    (h1 : o1 < q.length) (h2 : o2 < q.length) (hq : OrderInv q) :
    OrderInv (q.SwapOrders o1 o2) := by
  have hl : (q.SwapOrders o1 o2).length = q.length := rfl
  unfold OrderInv
  rw [hl, swapOrders_order]
  exact permOn_comp_inner (isPermBelow_swapFn h1 h2) hq

/-- Generic preservation of a projection along a fold. -/
theorem foldl_proj_eq {α β : Type} (proj : Queue → β) (f : Queue → α → Queue)
    (h : ∀ s x, proj (f s x) = proj s) :
    ∀ (l : List α) (q : Queue), proj (l.foldl f q) = proj q := by
  intro l
  induction l with
  | nil => intro q; rfl
  | cons x xs ih =>
    intro q
    rw [List.foldl_cons, ih, h]

theorem orderInv_append {q : Queue} (hq : OrderInv q) (song pr id : Nat) :
    OrderInv (q.Append song pr id).2 := by
  have hl : (q.Append song pr id).2.length = q.length + 1 := rfl
  have ho : (q.Append song pr id).2.order = Function.update q.order q.length q.length := rfl
  unfold OrderInv
  rw [hl, ho, permOn_iff_isPermBelow]
  rw [OrderInv, permOn_iff_isPermBelow] at hq
  obtain ⟨hb, hinj⟩ := hq
  constructor
  · intro i hi
    rw [Function.update_apply]
    split_ifs with h
    · omega
    · exact Nat.lt_succ_of_lt (hb i (by omega))
  · intro i j hi hj hf
    rw [Function.update_apply, Function.update_apply] at hf
    split_ifs at hf with h1 h2 h2
    · omega
    · have := hb j (by omega); omega
    · have := hb i (by omega); omega
    · exact hinj i j (by omega) (by omega) hf

theorem orderInv_clear (q : Queue) : OrderInv q.Clear := by
  have hl : q.Clear.length = 0 := rfl
  unfold OrderInv PermOn
  rw [hl]
  simp

theorem orderInv_swapPositions {q : Queue} (hq : OrderInv q) (p1 p2 : Nat) :
    OrderInv (q.SwapPositions p1 p2) := hq

theorem orderInv_foldl_swapOrders {α : Type} (a b : α → Nat) :
    ∀ (l : List α) (q : Queue),
      (∀ x ∈ l, a x < q.length ∧ b x < q.length) → OrderInv q →
      OrderInv (l.foldl (fun s x => s.SwapOrders (a x) (b x)) q) := by
  intro l
  induction l with
  | nil => intro q _ hq; exact hq
  | cons x xs ih =>
    intro q h hq
    rw [List.foldl_cons]
    have hx := h x (List.mem_cons_self x xs)
    exact ih _ (fun y hy => h y (List.mem_cons_of_mem x hy))
      (orderInv_swapOrders hx.1 hx.2 hq)

theorem shuffleOrderRange_length (q : Queue) (s e : Nat) (g : Nat → Nat) :
    (q.ShuffleOrderRange s e g).length = q.length := by
  unfold Queue.ShuffleOrderRange
  apply foldl_proj_eq
  intro s' x
  rfl

theorem shuffleOrderRange_items (q : Queue) (s e : Nat) (g : Nat → Nat) :
    (q.ShuffleOrderRange s e g).items = q.items := by
  unfold Queue.ShuffleOrderRange
  apply foldl_proj_eq
  intro s' x
  rfl

theorem orderInv_shuffleOrderRange {q : Queue} {s e : Nat} (g : Nat → Nat)
    (he : e ≤ q.length) (hq : OrderInv q) :
    OrderInv (q.ShuffleOrderRange s e g) := by
  unfold Queue.ShuffleOrderRange
  refine orderInv_foldl_swapOrders _ _ _ _ ?_ hq
  intro i hi
  have hmem := List.mem_range'_1.mp (List.mem_reverse.mp hi)
  have hmod : g i % (i + 1) ≤ i := Nat.lt_succ_iff.mp (Nat.mod_lt _ (Nat.succ_pos i))
  omega

theorem orderInv_shuffleOrderFirst {q : Queue} {s e : Nat} (pick : Nat)
    (hse : s < e) (he : e ≤ q.length) (hq : OrderInv q) :
    OrderInv (q.ShuffleOrderFirst s e pick) := by
  have hmod : pick % (e - s) < e - s := Nat.mod_lt _ (by omega)
  exact orderInv_swapOrders (by omega) (by omega) hq

theorem orderInv_shuffleOrderLast {q : Queue} {s e : Nat} (pick : Nat)
    (hse : s < e) (he : e ≤ q.length) (hq : OrderInv q) :
    OrderInv (q.ShuffleOrderLast s e pick) := by
  have hmod : pick % (e - s) < e - s := Nat.mod_lt _ (by omega)
  exact orderInv_swapOrders (by omega) (by omega) hq

theorem shuffleRange_order (q : Queue) (s e : Nat) (g : Nat → Nat) :
    (q.ShuffleRange s e g).order = q.order := by
  unfold Queue.ShuffleRange
  apply foldl_proj_eq
  intro s' x
  rfl

theorem shuffleRange_length (q : Queue) (s e : Nat) (g : Nat → Nat) :
    (q.ShuffleRange s e g).length = q.length := by
  unfold Queue.ShuffleRange
  apply foldl_proj_eq
  intro s' x
  rfl

theorem orderInv_of_fields {q q' : Queue} (ho : q'.order = q.order)
    (hl : q'.length = q.length) (hq : OrderInv q) : OrderInv q' := by
  unfold OrderInv
  rw [ho, hl]
  exact hq

theorem orderInv_shuffleRange {q : Queue} (s e : Nat) (g : Nat → Nat)
    (hq : OrderInv q) : OrderInv (q.ShuffleRange s e g) :=
  orderInv_of_fields (shuffleRange_order q s e g) (shuffleRange_length q s e g) hq

theorem uadd_collapse {a b : Nat} (h : a + b < 2 ^ 32) : uadd a b = a + b := by
  unfold uadd; omega

theorem usub_collapse {a b : Nat} (hb : b ≤ a) (ha : a < 2 ^ 32) : usub a b = a - b := by
  unfold usub; omega

theorem uadd_usub_collapse {x t s : Nat} (h1 : s ≤ x + t) (hx : x + t < 2 ^ 32)
    (ht : t < 2 ^ 32) (hs : s < 2 ^ 32) : uadd x (usub t s) = x + t - s := by
  unfold uadd usub; omega

theorem fold_mshift_down_order (l : List Nat) (q : Queue) :
    (l.foldl (fun s i => queue_move_song_to s (i + 1) i) q).order = q.order :=
  foldl_proj_eq Queue.order (fun s i => queue_move_song_to s (i + 1) i)
    (fun _ _ => rfl) l q

theorem fold_mshift_down_length (l : List Nat) (q : Queue) :
    (l.foldl (fun s i => queue_move_song_to s (i + 1) i) q).length = q.length :=
  foldl_proj_eq Queue.length (fun s i => queue_move_song_to s (i + 1) i)
    (fun _ _ => rfl) l q

theorem fold_mshift_up_order (l : List Nat) (q : Queue) :
    (l.foldl (fun s i => queue_move_song_to s (i - 1) i) q).order = q.order :=
  foldl_proj_eq Queue.order (fun s i => queue_move_song_to s (i - 1) i)
    (fun _ _ => rfl) l q

theorem fold_mshift_up_length (l : List Nat) (q : Queue) :
    (l.foldl (fun s i => queue_move_song_to s (i - 1) i) q).length = q.length :=
  foldl_proj_eq Queue.length (fun s i => queue_move_song_to s (i - 1) i)
    (fun _ _ => rfl) l q

theorem isPermBelow_movePosRho {from_ to_ n : Nat} (hf : from_ < n) (ht : to_ < n) :
    IsPermBelow (movePosRho from_ to_) n := by
  constructor
  · intro x hx
    unfold movePosRho
    split_ifs <;> omega
  · intro i j hi hj hij
    unfold movePosRho at hij
    split_ifs at hij <;> omega

theorem isPermBelow_moveRangeRho {start end_ to_ n : Nat} (hse : start ≤ end_)
    (he : end_ ≤ n) (ht : to_ + (end_ - start) ≤ n) :
    IsPermBelow (moveRangeRho start end_ to_) n := by
  constructor
  · intro x hx
    unfold moveRangeRho
    split_ifs <;> omega
  · intro i j hi hj hij
    unfold moveRangeRho at hij
    split_ifs at hij <;> omega

theorem movePostionItemsPhase_order (q : Queue) (a b : Nat) :
    (movePostionItemsPhase q a b).order = q.order := by
  simp only [movePostionItemsPhase]
  rw [fold_mshift_up_order, fold_mshift_down_order]

theorem movePostionItemsPhase_length (q : Queue) (a b : Nat) :
    (movePostionItemsPhase q a b).length = q.length := by
  simp only [movePostionItemsPhase]
  rw [fold_mshift_up_length, fold_mshift_down_length]

theorem movePostion_length (q : Queue) (a b : Nat) :
    (q.MovePostion a b).length = q.length := by
  cases hr : q.random with
  | false =>
    simp only [Queue.MovePostion, hr, Bool.false_eq_true, if_false]
    exact movePostionItemsPhase_length q a b
  | true =>
    simp only [Queue.MovePostion, hr, if_true]
    exact movePostionItemsPhase_length q a b

theorem movePostion_order_nonrandom {q : Queue} (hr : q.random = false) (a b : Nat) :
    (q.MovePostion a b).order = q.order := by
  simp only [Queue.MovePostion, hr, Bool.false_eq_true, if_false]
  exact movePostionItemsPhase_order q a b

theorem movePostion_order_random {q : Queue} (hr : q.random = true) (a b : Nat)
    (i : Nat) (hi : i < q.length) :
    (q.MovePostion a b).order i =
      (if a < q.order i ∧ q.order i ≤ b then usub (q.order i) 1
       else if q.order i < a ∧ b ≤ q.order i then uadd (q.order i) 1
       else if a = q.order i then b
       else q.order i) := by
  simp only [Queue.MovePostion, hr, if_true, movePostionItemsPhase_order,
    movePostionItemsPhase_length]
  simp only [hi, if_true]

theorem orderInv_movePostion {q : Queue} {a b : Nat} (ha : a < q.length)
    (hb : b < q.length) (hn : q.length < 2 ^ 31) (hq : OrderInv q) :
    OrderInv (q.MovePostion a b) := by
  cases hr : q.random with
  | false =>
    exact orderInv_of_fields (movePostion_order_nonrandom hr a b)
      (movePostion_length q a b) hq
  | true =>
    unfold OrderInv
    rw [movePostion_length q a b]
    have hbnd := ((permOn_iff_isPermBelow _ _).mp hq).1
    apply permOn_congr (f := fun i => movePosRho a b (q.order i))
    · intro i hi
      rw [movePostion_order_random hr a b i hi]
      have hx : q.order i < q.length := hbnd i hi
      unfold movePosRho
      split_ifs
      · rw [usub_collapse (by omega) (by omega)]
      · rw [uadd_collapse (by omega)]
      · rfl
      · rfl
    · exact permOn_comp_outer (isPermBelow_movePosRho ha hb) hq

theorem fold_mr_up_order (start end_ : Nat) (l : List Nat) (q : Queue) :
    (l.foldl (fun s i => queue_move_song_to s i (start + i - end_)) q).order = q.order :=
  foldl_proj_eq Queue.order (fun s i => queue_move_song_to s i (start + i - end_))
    (fun _ _ => rfl) l q

theorem fold_mr_up_length (start end_ : Nat) (l : List Nat) (q : Queue) :
    (l.foldl (fun s i => queue_move_song_to s i (start + i - end_)) q).length = q.length :=
  foldl_proj_eq Queue.length (fun s i => queue_move_song_to s i (start + i - end_))
    (fun _ _ => rfl) l q

theorem fold_mr_down_order (start end_ : Nat) (l : List Nat) (q : Queue) :
    (l.foldl (fun s i => queue_move_song_to s i (i + end_ - start)) q).order = q.order :=
  foldl_proj_eq Queue.order (fun s i => queue_move_song_to s i (i + end_ - start))
    (fun _ _ => rfl) l q

theorem fold_mr_down_length (start end_ : Nat) (l : List Nat) (q : Queue) :
    (l.foldl (fun s i => queue_move_song_to s i (i + end_ - start)) q).length = q.length :=
  foldl_proj_eq Queue.length (fun s i => queue_move_song_to s i (i + end_ - start))
    (fun _ _ => rfl) l q

theorem moveRangeItemsPhase_order (q : Queue) (a b c : Nat) :
    (moveRangeItemsPhase q a b c).order = q.order := by
  simp only [moveRangeItemsPhase]
  refine Eq.trans (foldl_proj_eq Queue.order _ ?_ _ _) ?_
  · intro t x; rfl
  · rw [fold_mr_down_order, fold_mr_up_order]

theorem moveRangeItemsPhase_length (q : Queue) (a b c : Nat) :
    (moveRangeItemsPhase q a b c).length = q.length := by
  simp only [moveRangeItemsPhase]
  refine Eq.trans (foldl_proj_eq Queue.length _ ?_ _ _) ?_
  · intro t x; rfl
  · rw [fold_mr_down_length, fold_mr_up_length]

theorem moveRange_length (q : Queue) (a b c : Nat) :
    (q.MoveRange a b c).length = q.length := by
  cases hr : q.random with
  | false =>
    simp only [Queue.MoveRange, hr, Bool.false_eq_true, if_false]
    exact moveRangeItemsPhase_length q a b c
  | true =>
    simp only [Queue.MoveRange, hr, if_true]
    exact moveRangeItemsPhase_length q a b c

theorem moveRange_order_nonrandom {q : Queue} (hr : q.random = false) (a b c : Nat) :
    (q.MoveRange a b c).order = q.order := by
  simp only [Queue.MoveRange, hr, Bool.false_eq_true, if_false]
  exact moveRangeItemsPhase_order q a b c

theorem moveRange_order_random {q : Queue} (hr : q.random = true) (a b c : Nat)
    (i : Nat) (hi : i < q.length) :
    (q.MoveRange a b c).order i =
      (if b ≤ q.order i ∧ q.order i < c + b - a then usub (q.order i) (usub b a)
       else if q.order i < a ∧ c ≤ q.order i then uadd (q.order i) (usub b a)
       else if a ≤ q.order i ∧ q.order i < b then uadd (q.order i) (usub c a)
       else q.order i) := by
  simp only [Queue.MoveRange, hr, if_true, moveRangeItemsPhase_order,
    moveRangeItemsPhase_length]
  simp only [hi, if_true]

theorem orderInv_moveRange {q : Queue} {a b c : Nat} (hab : a ≤ b)
    (hb : b ≤ q.length) (hc : c + (b - a) ≤ q.length) (hn : q.length < 2 ^ 31)
    (hq : OrderInv q) : OrderInv (q.MoveRange a b c) := by
  cases hr : q.random with
  | false =>
    exact orderInv_of_fields (moveRange_order_nonrandom hr a b c)
      (moveRange_length q a b c) hq
  | true =>
    unfold OrderInv
    rw [moveRange_length q a b c]
    have hbnd := ((permOn_iff_isPermBelow _ _).mp hq).1
    apply permOn_congr (f := fun i => moveRangeRho a b c (q.order i))
    · intro i hi
      rw [moveRange_order_random hr a b c i hi]
      have hx : q.order i < q.length := hbnd i hi
      unfold moveRangeRho
      have hba : usub b a = b - a := usub_collapse (by omega) (by omega)
      split_ifs with h1 h2 h3
      · rw [hba, usub_collapse (by omega) (by omega)]
      · rw [hba, uadd_collapse (by omega)]
      · rw [uadd_usub_collapse (by omega) (by omega) (by omega) (by omega)]
      · rfl
    · exact permOn_comp_outer (isPermBelow_moveRangeRho hab hb hc) hq

theorem positionToOrder_spec {q : Queue} {p : Nat} (hp : p < q.length)
    (hq : OrderInv q) :
    q.PositionToOrder p < q.length ∧ q.order (q.PositionToOrder p) = p := by
  unfold Queue.PositionToOrder
  have hpm : p ∈ (List.range q.length).map q.order :=
    hq.mem_iff.mpr (List.mem_range.mpr hp)
  obtain ⟨i, hi, hip⟩ := List.mem_map.mp hpm
  cases hfind : (List.range q.length).find? (fun i => q.order i == p) with
  | none =>
    exfalso
    exact absurd (by simpa using hip) (by simpa using List.find?_eq_none.mp hfind i hi)
  | some k =>
    refine ⟨List.mem_range.mp (List.mem_of_find?_eq_some hfind), ?_⟩
    simpa using List.find?_some hfind

theorem deletePositionItemsPhase_order (q : Queue) (p : Nat) :
    (deletePositionItemsPhase q p).order = q.order := by
  simp only [deletePositionItemsPhase]
  rw [fold_mshift_down_order]

theorem deletePositionItemsPhase_length (q : Queue) (p : Nat) :
    (deletePositionItemsPhase q p).length = q.length - 1 := by
  simp only [deletePositionItemsPhase]
  rw [fold_mshift_down_length]

theorem deletePosition_length (q : Queue) (p : Nat) :
    (q.DeletePosition p).length = q.length - 1 := by
  simp only [Queue.DeletePosition]
  exact deletePositionItemsPhase_length q p

theorem deletePosition_order_char (q : Queue) (p i : Nat) :
    (q.DeletePosition p).order i =
      (if i < q.length - 1 ∧ p <
          (if q.PositionToOrder p ≤ i ∧ i < q.length - 1 then q.order (i + 1) else q.order i)
       then usub
          (if q.PositionToOrder p ≤ i ∧ i < q.length - 1 then q.order (i + 1) else q.order i) 1
       else (if q.PositionToOrder p ≤ i ∧ i < q.length - 1 then q.order (i + 1) else q.order i)) := by
  simp only [Queue.DeletePosition, deletePositionItemsPhase_order]

theorem orderInv_deletePosition {q : Queue} {p : Nat} (hp : p < q.length)
    (hn : q.length < 2 ^ 31) (hq : OrderInv q) :
    OrderInv (q.DeletePosition p) := by
  obtain ⟨hordlt, hordeq⟩ := positionToOrder_spec hp hq
  obtain ⟨hb, hinj⟩ := (permOn_iff_isPermBelow _ _).mp hq
  have hyAux : ∀ i, i < q.length - 1 →
      (if i < q.PositionToOrder p then i else i + 1) < q.length ∧
      q.order (if i < q.PositionToOrder p then i else i + 1) ≠ p ∧
      q.order (if i < q.PositionToOrder p then i else i + 1) < q.length := by
    intro i hi
    have hjn : (if i < q.PositionToOrder p then i else i + 1) < q.length := by
      split_ifs <;> omega
    have hjd : (if i < q.PositionToOrder p then i else i + 1) ≠ q.PositionToOrder p := by
      split_ifs <;> omega
    exact ⟨hjn, fun hcon => hjd (hinj _ _ hjn hordlt (by rw [hcon, hordeq])), hb _ hjn⟩
  unfold OrderInv
  rw [deletePosition_length, permOn_iff_isPermBelow]
  have key : IsPermBelow (fun i =>
      (fun y => if p < y then y - 1 else y)
        (q.order (if i < q.PositionToOrder p then i else i + 1))) (q.length - 1) := by
    constructor
    · intro i hi
      obtain ⟨hjn, hyp, hyn⟩ := hyAux i hi
      simp only
      set y := q.order (if i < q.PositionToOrder p then i else i + 1) with hy
      split_ifs <;> omega
    · intro i j hi hj hij
      obtain ⟨hj1n, hy1p, hy1n⟩ := hyAux i hi
      obtain ⟨hj2n, hy2p, hy2n⟩ := hyAux j hj
      simp only at hij
      have heq : q.order (if i < q.PositionToOrder p then i else i + 1) =
          q.order (if j < q.PositionToOrder p then j else j + 1) := by
        set y1 := q.order (if i < q.PositionToOrder p then i else i + 1) with hy1
        set y2 := q.order (if j < q.PositionToOrder p then j else j + 1) with hy2
        split_ifs at hij <;> omega
      have hJ := hinj _ _ hj1n hj2n heq
      split_ifs at hJ <;> omega
  apply isPermBelow_ext _ key
  intro i hi
  obtain ⟨hjn, hyp, hyn⟩ := hyAux i hi
  rw [deletePosition_order_char]
  have ho1 : (if q.PositionToOrder p ≤ i ∧ i < q.length - 1
        then q.order (i + 1) else q.order i) =
      q.order (if i < q.PositionToOrder p then i else i + 1) := by
    by_cases h : q.PositionToOrder p ≤ i
    · rw [if_pos ⟨h, hi⟩, if_neg (by omega)]
    · rw [if_neg (fun hand => h hand.1), if_pos (by omega)]
  rw [ho1]
  simp only
  set y := q.order (if i < q.PositionToOrder p then i else i + 1) with hy
  by_cases hpy : p < y
  · rw [if_pos hpy, if_pos ⟨hi, hpy⟩, usub_collapse (by omega) (by omega)]
  · rw [if_neg hpy, if_neg (fun hand => hpy hand.2)]

theorem queue_move_order_order (q : Queue) (a b : Nat) :
    (queue_move_order q a b).order = fun i => q.order (moveOrderSigma a b i) := by
  by_cases h : a < b
  · simp only [queue_move_order, moveOrderSigma, Queue.OrderToPosition, if_pos h]
    funext i
    dsimp only
    split_ifs <;> rfl
  · simp only [queue_move_order, moveOrderSigma, Queue.OrderToPosition, if_neg h]
    funext i
    dsimp only
    split_ifs <;> rfl

theorem queue_move_order_length (q : Queue) (a b : Nat) :
    (queue_move_order q a b).length = q.length := by
  unfold queue_move_order
  split_ifs <;> rfl

theorem queue_move_order_items (q : Queue) (a b : Nat) :
    (queue_move_order q a b).items = q.items := by
  unfold queue_move_order
  split_ifs <;> rfl

theorem isPermBelow_moveOrderSigma {a b n : Nat} (ha : a < n) (hb : b < n) :
    IsPermBelow (moveOrderSigma a b) n := by
  constructor
  · intro i hi
    unfold moveOrderSigma
    split_ifs <;> omega
  · intro i j hi hj hij
    unfold moveOrderSigma at hij
    split_ifs at hij <;> omega

theorem orderInv_queue_move_order {q : Queue} {a b : Nat} (ha : a < q.length)
    (hb : b < q.length) (hq : OrderInv q) :
    OrderInv (queue_move_order q a b) := by
  unfold OrderInv
  rw [queue_move_order_length, queue_move_order_order]
  exact permOn_comp_inner (isPermBelow_moveOrderSigma ha hb) hq

theorem swapOrders_length (q : Queue) (o1 o2 : Nat) :
    (q.SwapOrders o1 o2).length = q.length := rfl

theorem swapOrders_items (q : Queue) (o1 o2 : Nat) :
    (q.SwapOrders o1 o2).items = q.items := rfl

theorem moveOrderSigma_self (a b : Nat) : moveOrderSigma a b b = a := by
  unfold moveOrderSigma
  split_ifs <;> omega

theorem queue_find_priority_order_le (q : Queue) (s pr ex : Nat) :
    queue_find_priority_order q s pr ex ≤ q.length := by
  unfold queue_find_priority_order
  cases hfind : (List.range' s (q.length - s)).find?
      (fun o => decide ((q.items (q.order o)).priority ≤ pr) &&
                decide (o ≠ ex)) with
  | none => exact Nat.le_refl _
  | some o =>
    have hmem := List.mem_range'_1.mp (List.mem_of_find?_eq_some hfind)
    show o ≤ q.length
    omega

theorem queue_count_same_priority_spec (q : Queue) (s pr : Nat)
    (hs : s < q.length) (hsp : (q.items (q.order s)).priority = pr) :
    1 ≤ queue_count_same_priority q s pr ∧
      s + queue_count_same_priority q s pr ≤ q.length := by
  unfold queue_count_same_priority
  cases hfind : (List.range' s (q.length - s)).find?
      (fun o => decide ((q.items (q.order o)).priority ≠ pr)) with
  | none =>
    show 1 ≤ q.length - s ∧ s + (q.length - s) ≤ q.length
    omega
  | some o =>
    have hmem := List.mem_range'_1.mp (List.mem_of_find?_eq_some hfind)
    have hpred := List.find?_some hfind
    have hne : o ≠ s := by
      intro hcon
      subst hcon
      rw [hsp] at hpred
      simp at hpred
    show 1 ≤ o - s ∧ s + (o - s) ≤ q.length
    omega

theorem setPriority_length (q : Queue) (p pr : Nat) (a : Int) (pk : Nat) :
    (q.SetPriority p pr a pk).2.length = q.length := by
  simp only [Queue.SetPriority]
  split_ifs <;>
    first
      | rfl
      | (simp only [Queue.ShuffleOrderFirst]
         rw [swapOrders_length, queue_move_order_length])

/-- OrderInv preservation along the repositioning tail of SetPriority. -/
theorem orderInv_setPriority_main {q1 : Queue} {ord new pr : Nat} (pk : Nat)
    (hordlt : ord < q1.length) (hnew : new < q1.length)
    (hq1 : OrderInv q1)
    (hprio : (q1.items (q1.order ord)).priority = pr) :
    OrderInv ((queue_move_order q1 ord new).ShuffleOrderFirst new
      (new + queue_count_same_priority (queue_move_order q1 ord new) new pr) pk) := by
  have hq2 := orderInv_queue_move_order hordlt hnew hq1
  have hlen2 : (queue_move_order q1 ord new).length = q1.length :=
    queue_move_order_length _ _ _
  have hord2 : (queue_move_order q1 ord new).order new = q1.order ord := by
    rw [queue_move_order_order]
    simp only
    rw [moveOrderSigma_self]
  have hprio2 : ((queue_move_order q1 ord new).items
      ((queue_move_order q1 ord new).order new)).priority = pr := by
    rw [queue_move_order_items, hord2]
    exact hprio
  obtain ⟨hpc1, hpc2⟩ :=
    queue_count_same_priority_spec (queue_move_order q1 ord new) new pr
      (by omega) hprio2
  exact orderInv_shuffleOrderFirst pk (by omega) (by omega) hq2

theorem find_priority_sub_one_lt (q : Queue) (s' pr ex : Nat) (h : 0 < q.length) :
    queue_find_priority_order q s' pr ex - 1 < q.length := by
  have := queue_find_priority_order_le q s' pr ex
  omega

theorem find_priority_le_lt {q : Queue} {s' pr ex : Nat}
    (h : ¬ ex < queue_find_priority_order q s' pr ex) (hex : ex < q.length) :
    queue_find_priority_order q s' pr ex < q.length := by
  omega

/-- OrderInv preservation for the full repositioning branch of SetPriority,
with the destination order slot abstracted. -/
theorem orderInv_setPriority_branch {q1 : Queue} {p pr new : Nat} (pk : Nat)
    (hp : p < q1.length) (hq1 : OrderInv q1) (hnew : new < q1.length)
    (hprio : (q1.items p).priority = pr) :
    OrderInv ((queue_move_order q1 (q1.PositionToOrder p) new).ShuffleOrderFirst new
      (new + queue_count_same_priority
        (queue_move_order q1 (q1.PositionToOrder p) new) new pr) pk) := by
  obtain ⟨hordlt, hordeq⟩ := positionToOrder_spec hp hq1
  exact orderInv_setPriority_main pk hordlt hnew hq1 (by rw [hordeq]; exact hprio)

theorem orderInv_setPriority {q : Queue} {p pr : Nat} {a : Int} (pk : Nat)
    (hp : p < q.length) (hq : OrderInv q) :
    OrderInv (q.SetPriority p pr a pk).2 := by
  simp only [Queue.SetPriority]
  split_ifs with h1 h2 h3 h4 h5
  · exact hq
  · exact hq
  · exact hq
  · exact hq
  · refine orderInv_setPriority_branch pk hp hq ?_ ?_
    · exact find_priority_sub_one_lt _ _ _ _ (Nat.lt_of_le_of_lt (Nat.zero_le p) hp)
    · simp
  · refine orderInv_setPriority_branch pk hp hq ?_ ?_
    · exact find_priority_le_lt h5 (positionToOrder_spec hp hq).1
    · simp

theorem orderInv_setPriorityRange_fold (pr : Nat) (AP : Int) (pks : Nat → Nat) (n : Nat) :
    ∀ (l : List Nat) (st : Bool × Queue),
      (∀ i ∈ l, i < n) → OrderInv st.2 → st.2.length = n →
      OrderInv ((l.foldl (fun st i =>
        (st.1 || (st.2.SetPriority i pr
            (if 0 ≤ AP then (st.2.PositionToOrder AP.toNat : Int) else -1) (pks i)).1,
         (st.2.SetPriority i pr
            (if 0 ≤ AP then (st.2.PositionToOrder AP.toNat : Int) else -1) (pks i)).2)) st).2) ∧
      (l.foldl (fun st i =>
        (st.1 || (st.2.SetPriority i pr
            (if 0 ≤ AP then (st.2.PositionToOrder AP.toNat : Int) else -1) (pks i)).1,
         (st.2.SetPriority i pr
            (if 0 ≤ AP then (st.2.PositionToOrder AP.toNat : Int) else -1) (pks i)).2)) st).2.length
        = n := by
  intro l
  induction l with
  | nil => intro st h hinv hlen; exact ⟨hinv, hlen⟩
  | cons x xs ih =>
    intro st h hinv hlen
    rw [List.foldl_cons]
    apply ih
    · intro i hi
      exact h i (List.mem_cons_of_mem x hi)
    · exact orderInv_setPriority _ (by rw [hlen]; exact h x (List.mem_cons_self x xs)) hinv
    · rw [setPriority_length]
      exact hlen

theorem orderInv_setPriorityRange {q : Queue} {s e pr : Nat} {a : Int} (pks : Nat → Nat)
    (he : e ≤ q.length) (hq : OrderInv q) :
    OrderInv (q.SetPriorityRange s e pr a pks).2 := by
  simp only [Queue.SetPriorityRange]
  refine (orderInv_setPriorityRange_fold pr _ pks q.length _ (false, q) ?_ hq rfl).1
  intro i hi
  have := List.mem_range'_1.mp hi
  omega

theorem setPriorityRange_length (q : Queue) (s e pr : Nat) (a : Int) (pks : Nat → Nat)
    (he : e ≤ q.length) (hq : OrderInv q) :
    (q.SetPriorityRange s e pr a pks).2.length = q.length := by
  simp only [Queue.SetPriorityRange]
  refine (orderInv_setPriorityRange_fold pr _ pks q.length _ (false, q) ?_ hq rfl).2
  intro i hi
  have := List.mem_range'_1.mp hi
  omega

theorem map_range'_getD : ∀ (L : List Nat) (s : Nat),
    (List.range' s L.length).map (fun i => L.getD (i - s) 0) = L := by
  intro L
  induction L with
  | nil => intro s; rfl
  | cons x xs ih =>
    intro s
    rw [List.length_cons, List.range'_succ, List.map_cons]
    congr 1
    · rw [Nat.sub_self]
      rfl
    · have hpt : ∀ i ∈ List.range' (s + 1) xs.length,
          (x :: xs).getD (i - s) 0 = xs.getD (i - (s + 1)) 0 := by
        intro i hi
        have hm := List.mem_range'_1.mp hi
        have hsplit : i - s = (i - (s + 1)) + 1 := by omega
        rw [hsplit, List.getD_cons_succ]
      rw [List.map_congr_left hpt, ih (s + 1)]

theorem map_range'_getD_k (L : List Nat) (s k : Nat) (hk : L.length = k) :
    (List.range' s k).map (fun i => L.getD (i - s) 0) = L := by
  subst hk
  exact map_range'_getD L s

theorem map_range_split (f : Nat → Nat) {s e n : Nat} (hs : s ≤ e) (he : e ≤ n) :
    (List.range n).map f =
      (List.range' 0 s).map f ++ (List.range' s (e - s)).map f
        ++ (List.range' e (n - e)).map f := by
  have h1 : List.range' 0 s ++ List.range' s (e - s) = List.range' 0 e := by
    have h := List.range'_append 0 s (e - s) 1
    simp only [Nat.zero_add, Nat.one_mul] at h
    rw [Nat.sub_add_cancel hs] at h
    exact h
  have h2 : List.range' 0 e ++ List.range' e (n - e) = List.range' 0 n := by
    have h := List.range'_append 0 e (n - e) 1
    simp only [Nat.zero_add, Nat.one_mul] at h
    rw [Nat.sub_add_cancel he] at h
    exact h
  rw [List.range_eq_range', ← h2, ← h1, List.map_append, List.map_append]

theorem sort_length (q : Queue) (s e : Nat) :
    (queue_sort_order_by_priority q s e).length = q.length := rfl

theorem sort_items (q : Queue) (s e : Nat) :
    (queue_sort_order_by_priority q s e).items = q.items := rfl

theorem sort_slice_map (q : Queue) (s e : Nat) (hse : s ≤ e) :
    (List.range' s (e - s)).map (queue_sort_order_by_priority q s e).order
      = List.insertionSort (prioGE q) ((List.range' s (e - s)).map q.order) := by
  have hlen : (List.insertionSort (prioGE q)
      ((List.range' s (e - s)).map q.order)).length = e - s := by
    rw [(List.perm_insertionSort _ _).length_eq, List.length_map]
    simp
  have hpt : ∀ i ∈ List.range' s (e - s),
      (queue_sort_order_by_priority q s e).order i =
        (List.insertionSort (prioGE q)
          ((List.range' s (e - s)).map q.order)).getD (i - s) 0 := by
    intro i hi
    have hm := List.mem_range'_1.mp hi
    show (if s ≤ i ∧ i < e then _ else _) = _
    rw [if_pos ⟨hm.1, by omega⟩]
  rw [List.map_congr_left hpt, map_range'_getD_k _ _ _ hlen]

theorem sort_order_outside (q : Queue) (s e i : Nat) (h : ¬(s ≤ i ∧ i < e)) :
    (queue_sort_order_by_priority q s e).order i = q.order i := by
  show (if s ≤ i ∧ i < e then _ else _) = _
  rw [if_neg h]

theorem orderInv_sort {q : Queue} {s e : Nat} (hse : s ≤ e) (he : e ≤ q.length)
    (hq : OrderInv q) : OrderInv (queue_sort_order_by_priority q s e) := by
  unfold OrderInv PermOn at hq ⊢
  rw [sort_length]
  have h1 : (List.range q.length).map (queue_sort_order_by_priority q s e).order
      = (List.range' 0 s).map q.order
        ++ List.insertionSort (prioGE q) ((List.range' s (e - s)).map q.order)
        ++ (List.range' e (q.length - e)).map q.order := by
    rw [map_range_split _ hse he]
    congr 1
    congr 1
    · refine List.map_congr_left (fun i hi => ?_)
      have hm := List.mem_range'_1.mp hi
      exact sort_order_outside q s e i (by omega)
    · exact sort_slice_map q s e hse
    · refine List.map_congr_left (fun i hi => ?_)
      have hm := List.mem_range'_1.mp hi
      exact sort_order_outside q s e i (by omega)
  rw [h1]
  have h2 : ((List.range' 0 s).map q.order
        ++ List.insertionSort (prioGE q) ((List.range' s (e - s)).map q.order)
        ++ (List.range' e (q.length - e)).map q.order).Perm
      ((List.range q.length).map q.order) := by
    rw [map_range_split q.order hse he]
    exact ((List.Perm.refl _).append (List.perm_insertionSort _ _)).append
      (List.Perm.refl _)
  exact h2.trans hq

theorem orderInv_groupFold (g : Nat → Nat → Nat) (n : Nat) :
    ∀ (l : List Nat) (st : Queue × Nat × Nat),
      (∀ i ∈ l, i ≤ n) → OrderInv st.1 → st.1.length = n →
      OrderInv ((l.foldl (fun st i =>
          if (st.1.items (st.1.order i)).priority ≠ st.2.2
          then (st.1.ShuffleOrderRange st.2.1 i (g st.2.1), i,
                (st.1.items (st.1.order i)).priority)
          else st) st).1) ∧
      ((l.foldl (fun st i =>
          if (st.1.items (st.1.order i)).priority ≠ st.2.2
          then (st.1.ShuffleOrderRange st.2.1 i (g st.2.1), i,
                (st.1.items (st.1.order i)).priority)
          else st) st).1.length = n) := by
  intro l
  induction l with
  | nil => intro st h hinv hlen; exact ⟨hinv, hlen⟩
  | cons x xs ih =>
    intro st h hinv hlen
    rw [List.foldl_cons]
    apply ih
    · intro i hi
      exact h i (List.mem_cons_of_mem x hi)
    · by_cases hc : (st.1.items (st.1.order x)).priority ≠ st.2.2
      · rw [if_pos hc]
        exact orderInv_shuffleOrderRange _
          (by rw [hlen]; exact h x (List.mem_cons_self x xs)) hinv
      · rw [if_neg hc]
        exact hinv
    · by_cases hc : (st.1.items (st.1.order x)).priority ≠ st.2.2
      · rw [if_pos hc]
        rw [show ((st.1.ShuffleOrderRange st.2.1 x (g st.2.1), x,
            (st.1.items (st.1.order x)).priority) : Queue × Nat × Nat).1
            = st.1.ShuffleOrderRange st.2.1 x (g st.2.1) from rfl]
        rw [shuffleOrderRange_length]
        exact hlen
      · rw [if_neg hc]
        exact hlen

theorem orderInv_shuffleOrderRangeWithPriority {q : Queue} {s e : Nat}
    (g : Nat → Nat → Nat) (hse : s ≤ e) (he : e ≤ q.length) (hq : OrderInv q) :
    OrderInv (q.ShuffleOrderRangeWithPriority s e g) := by
  simp only [Queue.ShuffleOrderRangeWithPriority]
  split_ifs with h
  · exact hq
  · have hq1 : OrderInv (queue_sort_order_by_priority q s e) := orderInv_sort hse he hq
    have hfold := orderInv_groupFold g q.length (List.range' (s + 1) (e - s - 1))
      (queue_sort_order_by_priority q s e, s,
        ((queue_sort_order_by_priority q s e).items
          ((queue_sort_order_by_priority q s e).order s)).priority)
      (fun i hi => by have := List.mem_range'_1.mp hi; omega)
      hq1 (sort_length q s e)
    exact orderInv_shuffleOrderRange _ (by rw [hfold.2]; exact he) hfold.1

theorem shuffleOrderRangeWithPriority_length (q : Queue) (s e : Nat)
    (g : Nat → Nat → Nat) (hse : s ≤ e) (he : e ≤ q.length) (hq : OrderInv q) :
    (q.ShuffleOrderRangeWithPriority s e g).length = q.length := by
  simp only [Queue.ShuffleOrderRangeWithPriority]
  split_ifs with h
  · rfl
  · have hq1 : OrderInv (queue_sort_order_by_priority q s e) := orderInv_sort hse he hq
    have hfold := orderInv_groupFold g q.length (List.range' (s + 1) (e - s - 1))
      (queue_sort_order_by_priority q s e, s,
        ((queue_sort_order_by_priority q s e).items
          ((queue_sort_order_by_priority q s e).order s)).priority)
      (fun i hi => by have := List.mem_range'_1.mp hi; omega)
      hq1 (sort_length q s e)
    rw [shuffleOrderRange_length]
    exact hfold.2

theorem orderInv_op_apply {op : Op} {q : Queue} (hpre : op.preb q = true)
    (hq : OrderInv q) : OrderInv (op.apply q) := by
  cases op with
  | append song pr id => exact orderInv_append hq song pr id
  | deletePosition p =>
    simp only [Op.preb, Bool.and_eq_true, decide_eq_true_eq] at hpre
    exact orderInv_deletePosition hpre.1 hpre.2 hq
  | clear => exact orderInv_clear q
  | swapPositions p1 p2 => exact orderInv_swapPositions hq p1 p2
  | movePosition f t =>
    simp only [Op.preb, Bool.and_eq_true, decide_eq_true_eq] at hpre
    exact orderInv_movePostion hpre.1.1 hpre.1.2 hpre.2 hq
  | moveRange s e t =>
    simp only [Op.preb, Bool.and_eq_true, decide_eq_true_eq] at hpre
    exact orderInv_moveRange hpre.1.1.1 hpre.1.1.2 hpre.1.2 hpre.2 hq
  | setPriority p pr a pk =>
    simp only [Op.preb, Bool.and_eq_true, decide_eq_true_eq] at hpre
    exact orderInv_setPriority pk hpre.1.1 hq
  | setPriorityRange s e pr a pks =>
    simp only [Op.preb, Bool.and_eq_true, decide_eq_true_eq] at hpre
    exact orderInv_setPriorityRange pks hpre.1.1.2 hq
  | shuffleRange s e g => exact orderInv_shuffleRange s e g hq
  | shuffleOrderRangeWithPriority s e g =>
    simp only [Op.preb, Bool.and_eq_true, decide_eq_true_eq] at hpre
    exact orderInv_shuffleOrderRangeWithPriority g hpre.1.2 hpre.2 hq
  | shuffleOrderFirst s e pk =>
    simp only [Op.preb, Bool.and_eq_true, decide_eq_true_eq] at hpre
    exact orderInv_shuffleOrderFirst pk hpre.1 hpre.2 hq
  | shuffleOrderLast s e pk =>
    simp only [Op.preb, Bool.and_eq_true, decide_eq_true_eq] at hpre
    exact orderInv_shuffleOrderLast pk hpre.1 hpre.2 hq

theorem orderInv_applySeq : ∀ (ops : List Op) (q : Queue),
    OrderInv q → preAll ops q = true → OrderInv (applySeq ops q) := by
  intro ops
  induction ops with
  | nil => intro q hq _; exact hq
  | cons op rest ih =>
    intro q hq hpre
    simp only [preAll, Bool.and_eq_true] at hpre
    simp only [applySeq, List.foldl_cons]
    exact ih _ (orderInv_op_apply hpre.1 hq) hpre.2

theorem preAll_of_append : ∀ (pfx sfx : List Op) (q : Queue),
    preAll (pfx ++ sfx) q = true → preAll pfx q = true := by
  intro pfx
  induction pfx with
  | nil => intro sfx q _; rfl
  | cons op rest ih =>
    intro sfx q hpre
    simp only [List.cons_append, preAll, Bool.and_eq_true] at hpre ⊢
    exact ⟨hpre.1, ih sfx _ hpre.2⟩

/-- C1: for every sequence of the public mutating operations (Append,
DeletePosition, Clear, SwapPositions, MovePosition, MoveRange, SetPriority,
SetPriorityRange, ShuffleRange, ShuffleOrderRangeWithPriority,
ShuffleOrderFirst, ShuffleOrderLast) invoked with their preconditions
satisfied, after each operation returns the order array restricted to
indices 0..length-1 is a permutation of the set 0..length-1: the state
reached by every prefix of the run, started from a state satisfying the
invariant, satisfies it again. -/
theorem C1_order_array_permutation (ops pfx sfx : List Op) (q0 : Queue)
    (h0 : ((List.range q0.length).map q0.order).Perm (List.range q0.length))
    (hpre : preAll ops q0 = true) (hsplit : ops = pfx ++ sfx) :
    ((List.range (applySeq pfx q0).length).map (applySeq pfx q0).order).Perm
      (List.range (applySeq pfx q0).length) := by
  subst hsplit
  exact orderInv_applySeq pfx q0 h0 (preAll_of_append pfx sfx q0 hpre)

/-- Witness for C1: the hypotheses hold for the concrete run opsW from q0w,
and the theorem yields the invariant at its final state. -/
theorem C1_order_array_permutation_witness :
    (((List.range q0w.length).map q0w.order).Perm (List.range q0w.length) ∧
      preAll opsW q0w = true) ∧
    ((List.range (applySeq opsW q0w).length).map (applySeq opsW q0w).order).Perm
      (List.range (applySeq opsW q0w).length) :=
  ⟨⟨by decide, by decide⟩,
    C1_order_array_permutation opsW opsW [] q0w (by decide) (by decide)
      (List.append_nil opsW).symm⟩

/-- C2: GetNextOrder implements exactly the four-rule cascade, rules checked
top to bottom with the first match winning: order_idx when single and repeat
and not consume, otherwise order_idx + 1 when below length, otherwise 0 when
repeat and (order_idx positive or not consume), otherwise -1; in particular,
with repeat and single set and consume clear, at order 1 of a three-item
queue the next order is 1. -/
theorem C2_getNextOrder_cascade (q : Queue) (o : Nat) (ho : o < q.length) :
    q.GetNextOrder o = nextSpec q.repeatFlag q.single q.consume q.length o ∧
    q3sr.GetNextOrder 1 = 1 := by
  refine ⟨?_, by decide⟩
  unfold Queue.GetNextOrder nextSpec
  cases hs : q.single <;> cases hr : q.repeatFlag <;> cases hc : q.consume <;>
    simp [decide_eq_true_eq]

/-- Witness for C2 at order 1 of the concrete three-item queue. -/
theorem C2_getNextOrder_cascade_witness :
    (1 < q3sr.length) ∧
    (q3sr.GetNextOrder 1 =
        nextSpec q3sr.repeatFlag q3sr.single q3sr.consume q3sr.length 1 ∧
      q3sr.GetNextOrder 1 = 1) :=
  ⟨by decide, C2_getNextOrder_cascade q3sr 1 (by decide)⟩

/-- Counterexample to C8: in the three-item queue with consume and repeat
set, the next order after order 0 is 1 (the second cascade rule fires), not
the end-of-queue marker -1 the claim asserts. -/
theorem C8_counterexample :
    q3cr.GetNextOrder 0 = 1 ∧ ¬ q3cr.GetNextOrder 0 = -1 := by
  decide

/-- C8 amended: in the three-item non-random queue, next(2) with repeat set
is 0; with consume and repeat set, next(0) is 1, because order 0 plus 1 is
still below the length and that rule fires first; the end marker for order 0
with consume set arises only once the queue has a single item. -/
theorem C8_amended_repeat_wrap :
    q3rep.GetNextOrder 2 = 0 ∧ q3cr.GetNextOrder 0 = 1 ∧
    q1cr.GetNextOrder 0 = -1 := by
  decide

/-- C4: on the five-item queue [A,B,C,D,E], in either mode, MoveRange(1,3,3)
yields the position sequence [A,D,E,B,C]; the IdMap maps the identifier of B
to position 3 and of C to position 4; A, outside the union of the source and
destination ranges, keeps position 0; and the precondition to <= length -
(end - start) holds for these arguments. -/
theorem C4_moveRange_end_to_end (b : Bool) :
    (List.range 5).map (fun i => (((q5w b).MoveRange 1 3 3).items i).song)
        = [10, 13, 14, 11, 12] ∧
    ((q5w b).MoveRange 1 3 3).id_to_position 1 = 3 ∧
    ((q5w b).MoveRange 1 3 3).id_to_position 2 = 4 ∧
    (((q5w b).MoveRange 1 3 3).items 0).song = 10 ∧
    ((q5w b).MoveRange 1 3 3).id_to_position 0 = 0 ∧
    3 ≤ (q5w b).length - (3 - 1) := by
  cases b <;> decide

/-- C7: SetPriority called with the item's current priority returns false
and leaves the whole queue state untouched: the early equality test fires
before any mutation. -/
theorem C7_setPriority_idempotent (q : Queue) (p : Nat) (x : Int) (pk : Nat)
    (hp : p < q.length) :
    q.SetPriority p (q.items p).priority x pk = (false, q) := by
  unfold Queue.SetPriority
  rw [if_pos rfl]

/-- Witness for C7 on the concrete three-item queue. -/
theorem C7_setPriority_idempotent_witness :
    (0 < q3rep.length) ∧
    q3rep.SetPriority 0 (q3rep.items 0).priority (-1) 0 = (false, q3rep) :=
  ⟨by decide, C7_setPriority_idempotent q3rep 0 (-1) 0 (by decide)⟩

/-- C9: Append through the capacity check on a full queue fails with
QueueFull and returns the state unchanged; the check precedes any
mutation. -/
theorem C9_append_full (q : Queue) (song pr id : Nat)
    (h : q.length = q.max_length) :
    (q.AppendChecked song pr id).1 = Except.error QueueError.QueueFull ∧
    (q.AppendChecked song pr id).2 = q := by
  have hfull : q.IsFull = true := by
    unfold Queue.IsFull
    simp [h]
  unfold Queue.AppendChecked
  rw [hfull]
  exact ⟨rfl, rfl⟩

/-- Witness for C9: a full two-item queue. -/
theorem C9_append_full_witness :
    (((((Queue.init 2).Append 10 0 0).2.Append 11 0 1).2.length : Nat) =
        ((((Queue.init 2).Append 10 0 0).2.Append 11 0 1).2.max_length : Nat)) ∧
    (((((Queue.init 2).Append 10 0 0).2.Append 11 0 1).2.AppendChecked 12 0 2).1 =
        Except.error QueueError.QueueFull ∧
      ((((Queue.init 2).Append 10 0 0).2.Append 11 0 1).2.AppendChecked 12 0 2).2 =
        (((Queue.init 2).Append 10 0 0).2.Append 11 0 1).2) :=
  ⟨by decide, C9_append_full _ 12 0 2 (by decide)⟩

/-- C10: MovePostion of an item onto its own position, in any mode, changes
nothing except re-stamping the item at that position with the current
version counter: items elsewhere, order array, IdMap, length, mode flags
and the counter itself are all unchanged. -/
theorem C10_movePostion_self {q : Queue} {p : Nat} (hp : p < q.length)
    (hid : q.id_to_position (q.items p).id = (p : Int)) :
    q.MovePostion p p =
      { q with items := (Function.update q.items p
          { q.items p with version := q.version }) } := by
  have hupd : Function.update q.id_to_position (q.items p).id ((p : Nat) : Int)
      = q.id_to_position := by
    funext j
    rw [Function.update_apply]
    split_ifs with hj
    · subst hj
      exact hid.symm
    · rfl
  have hphase : movePostionItemsPhase q p p =
      { q with items := (Function.update q.items p
          { q.items p with version := q.version }) } := by
    simp only [movePostionItemsPhase, Nat.sub_self]
    rw [show List.range' p 0 = [] from rfl, show List.range' (p + 1) 0 = [] from rfl]
    simp only [List.reverse_nil, List.foldl_nil]
    rw [hupd]
  by_cases hr : q.random = true
  · simp only [Queue.MovePostion]
    rw [if_pos hr, hphase]
    congr 1
    funext i
    show (if i < _ then _ else _) = _
    split_ifs with h1 h2 h3 h4
    · omega
    · omega
    · exact h4
    · rfl
    · rfl
  · simp only [Queue.MovePostion]
    rw [if_neg hr]
    exact hphase

/-- Witness for C10 on the concrete one-item queue. -/
theorem C10_movePostion_self_witness :
    (0 < q1w.length ∧ q1w.id_to_position (q1w.items 0).id = (0 : Int)) ∧
    q1w.MovePostion 0 0 =
      { q1w with items := (Function.update q1w.items 0
          { q1w.items 0 with version := q1w.version }) } :=
  ⟨⟨by decide, by decide⟩, C10_movePostion_self (by decide) (by decide)⟩

/-- Counterexample to C6: after SwapPositions(0,1) on the concrete two-item
queue, the version counter is unchanged and equals the new stamps, so it is
not strictly greater than them: SwapPositions does not call
IncrementVersion. -/
theorem C6_counterexample :
    (q2w.SwapPositions 0 1).version = q2w.version ∧
    ¬ (q2w.SwapPositions 0 1).version >
        ((q2w.SwapPositions 0 1).items 0).version := by
  decide

/-- C6 amended: SwapPositions exchanges the two items, stamps both with the
version counter value current at entry, rebinds both IdMap entries so that
the first id maps to the second position and conversely, and leaves the
version counter, the length and all other items untouched; the counter does
not get incremented inside SwapPositions (the caller bumps it separately),
so after the call it equals both new stamps. -/
theorem C6_amended_swapPositions (q : Queue) (p1 p2 : Nat)
    (h1 : p1 < q.length) (h2 : p2 < q.length)
    (hid : p1 = p2 ∨ (q.items p1).id ≠ (q.items p2).id) :
    (q.SwapPositions p1 p2).items p1 = { q.items p2 with version := q.version } ∧
    (q.SwapPositions p1 p2).items p2 = { q.items p1 with version := q.version } ∧
    (∀ i, i ≠ p1 → i ≠ p2 → (q.SwapPositions p1 p2).items i = q.items i) ∧
    (q.SwapPositions p1 p2).id_to_position (q.items p1).id = (p2 : Int) ∧
    (q.SwapPositions p1 p2).id_to_position (q.items p2).id = (p1 : Int) ∧
    (q.SwapPositions p1 p2).version = q.version ∧
    (q.SwapPositions p1 p2).length = q.length := by
  refine ⟨?_, ?_, ?_, ?_, ?_, rfl, rfl⟩
  · show (if p1 = p1 then _ else _) = _
    rw [if_pos rfl]
  · show (if p2 = p1 then _ else if p2 = p2 then _ else _) = _
    split_ifs with ha hb
    · subst ha
      rfl
    · rfl
    · exact absurd rfl hb
  · intro i hi1 hi2
    show (if i = p1 then _ else _) = _
    rw [if_neg hi1, if_neg hi2]
  · show Function.update (Function.update _ _ _) _ _ _ = _
    rcases hid with h | h
    · subst h
      rw [Function.update_apply]
      split_ifs with hc
      · rfl
      · rw [Function.update_apply, if_pos rfl]
    · rw [Function.update_apply, if_neg h, Function.update_apply, if_pos rfl]
  · show Function.update (Function.update _ _ _) _ _ _ = _
    rw [Function.update_apply, if_pos rfl]

/-- Witness for C6 amended on the concrete two-item queue. -/
theorem C6_amended_swapPositions_witness :
    (0 < q2w.length ∧ 1 < q2w.length ∧
      ((0 : Nat) = 1 ∨ (q2w.items 0).id ≠ (q2w.items 1).id)) ∧
    ((q2w.SwapPositions 0 1).items 0 = { q2w.items 1 with version := q2w.version } ∧
     (q2w.SwapPositions 0 1).items 1 = { q2w.items 0 with version := q2w.version } ∧
     (∀ i, i ≠ 0 → i ≠ 1 → (q2w.SwapPositions 0 1).items i = q2w.items i) ∧
     (q2w.SwapPositions 0 1).id_to_position (q2w.items 0).id = (1 : Int) ∧
     (q2w.SwapPositions 0 1).id_to_position (q2w.items 1).id = (0 : Int) ∧
     (q2w.SwapPositions 0 1).version = q2w.version ∧
     (q2w.SwapPositions 0 1).length = q2w.length) :=
  ⟨⟨by decide, by decide, by decide⟩,
    C6_amended_swapPositions q2w 0 1 (by decide) (by decide)
      (Or.inr (by decide))⟩

/-- Counterexample to C5: with the counter at 2 to the 31 minus 2, the bump
resets (new counter 1, stamps 0) although the incremented counter, 2 to the
31 minus 1, does not exceed 2 to the 31 minus 1 — the reset does not happen
exactly when the counter would exceed that bound, but already when it would
reach it. -/
theorem C5_counterexample :
    qVw.IncrementVersion.version = 1 ∧
    (qVw.IncrementVersion.items 0).version = 0 ∧
    ¬ qVw.version + 1 > 2 ^ 31 - 1 := by
  refine ⟨by decide, by decide, by decide⟩

theorem incrementVersion_reset {q : Queue}
    (h : versionMax ≤ (q.version + 1) % 2 ^ 32) :
    q.IncrementVersion =
      { q with version := 1,
               items := fun i =>
                 if i < q.length then { q.items i with version := 0 }
                 else q.items i } := by
  unfold Queue.IncrementVersion
  rw [if_pos h]

theorem incrementVersion_bump {q : Queue}
    (h : ¬ versionMax ≤ (q.version + 1) % 2 ^ 32) :
    q.IncrementVersion = { q with version := (q.version + 1) % 2 ^ 32 } := by
  unfold Queue.IncrementVersion
  rw [if_neg h]

theorem modifyAtOrder_reset {q : Queue} (o : Nat)
    (h : versionMax ≤ (q.version + 1) % 2 ^ 32) :
    (q.ModifyAtOrder o).version = 1 ∧
    ∀ i, i < q.length → ((q.ModifyAtOrder o).items i).version = 0 := by
  have hdef : q.ModifyAtOrder o =
      ({ q with items := (Function.update q.items (q.order o)
        { q.items (q.order o) with version := q.version }) } : Queue).IncrementVersion :=
    rfl
  rw [hdef, incrementVersion_reset (by exact h)]
  refine ⟨rfl, ?_⟩
  intro i hi
  show ((if i < q.length then _ else _ : QItem)).version = 0
  rw [if_pos hi]

theorem modifyAll_reset {q : Queue}
    (h : versionMax ≤ (q.version + 1) % 2 ^ 32) :
    (q.ModifyAll).version = 1 ∧
    ∀ i, i < q.length → ((q.ModifyAll).items i).version = 0 := by
  have hdef : q.ModifyAll =
      ({ q with items := fun i =>
        if i < q.length then { q.items i with version := q.version }
        else q.items i } : Queue).IncrementVersion := rfl
  rw [hdef, incrementVersion_reset (by exact h)]
  refine ⟨rfl, ?_⟩
  intro i hi
  show ((if i < q.length then _ else _ : QItem)).version = 0
  rw [if_pos hi]

/-- C5 amended: starting with the counter at 2 to the 31 minus 2, any
stamping operation that bumps the counter (ModifyAtOrder, ModifyAll) resets
the counter to 1 and sets every live item stamp to 0; in general the counter
is reset to 1 exactly when the incremented counter would reach or exceed
2 to the 31 minus 1, and below that threshold it is simply incremented. -/
theorem C5_amended_version_wrap (q : Queue) (o : Nat)
    (hv : q.version = 2 ^ 31 - 2) :
    ((q.ModifyAtOrder o).version = 1 ∧
      ∀ i, i < q.length → ((q.ModifyAtOrder o).items i).version = 0) ∧
    ((q.ModifyAll).version = 1 ∧
      ∀ i, i < q.length → ((q.ModifyAll).items i).version = 0) ∧
    (∀ q' : Queue, q'.version + 1 < 2 ^ 32 →
      (2 ^ 31 - 1 ≤ q'.version + 1 →
        q'.IncrementVersion =
          { q' with version := 1,
                    items := fun i =>
                      if i < q'.length then { q'.items i with version := 0 }
                      else q'.items i }) ∧
      (q'.version + 1 < 2 ^ 31 - 1 →
        q'.IncrementVersion = { q' with version := q'.version + 1 })) := by
  have hcond : versionMax ≤ (q.version + 1) % 2 ^ 32 := by
    rw [hv]
    unfold versionMax
    norm_num
  refine ⟨modifyAtOrder_reset o hcond, modifyAll_reset hcond, ?_⟩
  intro q' hlt
  constructor
  · intro hge
    refine incrementVersion_reset ?_
    unfold versionMax
    rw [Nat.mod_eq_of_lt hlt]
    exact hge
  · intro hlow
    rw [incrementVersion_bump ?_]
    · rw [Nat.mod_eq_of_lt hlt]
    · unfold versionMax
      rw [Nat.mod_eq_of_lt hlt]
      omega

/-- Witness for C5 amended at the concrete queue with counter at the
threshold minus one. -/
theorem C5_amended_version_wrap_witness :
    (qVw.version = 2 ^ 31 - 2) ∧
    (((qVw.ModifyAtOrder 0).version = 1 ∧
      ∀ i, i < qVw.length → ((qVw.ModifyAtOrder 0).items i).version = 0) ∧
    ((qVw.ModifyAll).version = 1 ∧
      ∀ i, i < qVw.length → ((qVw.ModifyAll).items i).version = 0) ∧
    (∀ q' : Queue, q'.version + 1 < 2 ^ 32 →
      (2 ^ 31 - 1 ≤ q'.version + 1 →
        q'.IncrementVersion =
          { q' with version := 1,
                    items := fun i =>
                      if i < q'.length then { q'.items i with version := 0 }
                      else q'.items i }) ∧
      (q'.version + 1 < 2 ^ 31 - 1 →
        q'.IncrementVersion = { q' with version := q'.version + 1 }))) :=
  ⟨by decide, C5_amended_version_wrap qVw 0 (by decide)⟩

theorem sort_order_inside (q : Queue) (s e i : Nat) (h : s ≤ i ∧ i < e) :
    (queue_sort_order_by_priority q s e).order i =
      (List.insertionSort (prioGE q) ((List.range' s (e - s)).map q.order)).getD
        (i - s) 0 := by
  show (if s ≤ i ∧ i < e then _ else _) = _
  rw [if_pos h]

theorem sorted_prioAt (q : Queue) (s e : Nat) :
    ∀ i j, s ≤ i → i ≤ j → j < e →
      prioAt (queue_sort_order_by_priority q s e) j ≤
        prioAt (queue_sort_order_by_priority q s e) i := by
  intro i j hi hij hj
  unfold prioAt
  rw [show (queue_sort_order_by_priority q s e).items = q.items from rfl]
  rw [sort_order_inside q s e i ⟨hi, by omega⟩, sort_order_inside q s e j ⟨by omega, hj⟩]
  have hlen : (List.insertionSort (prioGE q)
      ((List.range' s (e - s)).map q.order)).length = e - s := by
    rw [(List.perm_insertionSort _ _).length_eq, List.length_map]
    simp
  have hsorted : (List.insertionSort (prioGE q)
      ((List.range' s (e - s)).map q.order)).Sorted (prioGE q) :=
    List.sorted_insertionSort _ _
  by_cases heq : i = j
  · subst heq
    exact Nat.le_refl _
  · have hilen : i - s < (List.insertionSort (prioGE q)
        ((List.range' s (e - s)).map q.order)).length := by omega
    have hjlen : j - s < (List.insertionSort (prioGE q)
        ((List.range' s (e - s)).map q.order)).length := by omega
    have hrel := List.Sorted.rel_get_of_lt hsorted
      (a := ⟨i - s, hilen⟩) (b := ⟨j - s, hjlen⟩) (by show i - s < j - s; omega)
    rw [List.getD_eq_getElem _ _ hilen, List.getD_eq_getElem _ _ hjlen]
    exact hrel

theorem prioAt_swapOrders_pt (q : Queue) (o1 o2 k : Nat)
    (h : prioAt q o1 = prioAt q o2) :
    prioAt (q.SwapOrders o1 o2) k = prioAt q k := by
  unfold prioAt at h ⊢
  rw [show (q.SwapOrders o1 o2).items = q.items from rfl, swapOrders_order]
  show (q.items (q.order (swapFn o1 o2 k))).priority = _
  unfold swapFn
  split_ifs with h1 h2
  · subst h1
    exact h.symm
  · subst h2
    exact h
  · rfl

theorem prioAt_foldl_swaps {c : Nat} (a b : Nat) (g : Nat → Nat) :
    ∀ (l : List Nat) (q : Queue),
      (∀ i ∈ l, 1 ≤ i ∧ i < b - a) →
      (∀ k, a ≤ k → k < b → prioAt q k = c) →
      ∀ k, prioAt (l.foldl (fun s i => s.SwapOrders (a + i) (a + g i % (i + 1))) q) k
        = prioAt q k := by
  intro l
  induction l with
  | nil => intro q _ _ k; rfl
  | cons x xs ih =>
    intro q hmem hconst k
    rw [List.foldl_cons]
    have hx := hmem x (List.mem_cons_self x xs)
    have hmod : g x % (x + 1) ≤ x := Nat.lt_succ_iff.mp (Nat.mod_lt _ (Nat.succ_pos x))
    have hswap : ∀ m, prioAt (q.SwapOrders (a + x) (a + g x % (x + 1))) m = prioAt q m := by
      intro m
      apply prioAt_swapOrders_pt
      rw [hconst (a + x) (by omega) (by omega),
          hconst (a + g x % (x + 1)) (by omega) (by omega)]
    rw [ih _ (fun i hi => hmem i (List.mem_cons_of_mem x hi))
        (fun m hm1 hm2 => (hswap m).trans (hconst m hm1 hm2)), hswap k]

theorem prioAt_shuffleOrderRange {q : Queue} {a b c : Nat} (g : Nat → Nat)
    (hconst : ∀ k, a ≤ k → k < b → prioAt q k = c) :
    ∀ k, prioAt (q.ShuffleOrderRange a b g) k = prioAt q k := by
  intro k
  unfold Queue.ShuffleOrderRange
  refine prioAt_foldl_swaps a b g _ q ?_ hconst k
  intro i hi
  have := List.mem_range'_1.mp (List.mem_reverse.mp hi)
  omega

theorem groupFold_prioAt (g : Nat → Nat → Nat) (qs : Queue) :
    ∀ (cnt i0 : Nat) (st : Queue × Nat × Nat),
      (∀ k, prioAt st.1 k = prioAt qs k) →
      st.2.1 < i0 →
      (∀ k, st.2.1 ≤ k → k < i0 → prioAt st.1 k = st.2.2) →
      ((∀ k, prioAt ((List.range' i0 cnt).foldl (fun st i =>
          if (st.1.items (st.1.order i)).priority ≠ st.2.2
          then (st.1.ShuffleOrderRange st.2.1 i (g st.2.1), i,
                (st.1.items (st.1.order i)).priority)
          else st) st).1 k = prioAt qs k) ∧
       ((List.range' i0 cnt).foldl (fun st i =>
          if (st.1.items (st.1.order i)).priority ≠ st.2.2
          then (st.1.ShuffleOrderRange st.2.1 i (g st.2.1), i,
                (st.1.items (st.1.order i)).priority)
          else st) st).2.1 < i0 + cnt ∧
       (∀ k, ((List.range' i0 cnt).foldl (fun st i =>
          if (st.1.items (st.1.order i)).priority ≠ st.2.2
          then (st.1.ShuffleOrderRange st.2.1 i (g st.2.1), i,
                (st.1.items (st.1.order i)).priority)
          else st) st).2.1 ≤ k →
          k < i0 + cnt →
          prioAt ((List.range' i0 cnt).foldl (fun st i =>
            if (st.1.items (st.1.order i)).priority ≠ st.2.2
            then (st.1.ShuffleOrderRange st.2.1 i (g st.2.1), i,
                  (st.1.items (st.1.order i)).priority)
            else st) st).1 k
            = ((List.range' i0 cnt).foldl (fun st i =>
              if (st.1.items (st.1.order i)).priority ≠ st.2.2
              then (st.1.ShuffleOrderRange st.2.1 i (g st.2.1), i,
                    (st.1.items (st.1.order i)).priority)
              else st) st).2.2)) := by
  intro cnt
  induction cnt with
  | zero =>
    intro i0 st h1 h2 h3
    rw [show List.range' i0 0 = ([] : List Nat) from rfl, List.foldl_nil]
    exact ⟨h1, by omega, fun k hk1 hk2 => h3 k hk1 (by omega)⟩
  | succ n ih =>
    intro i0 st h1 h2 h3
    rw [List.range'_succ, List.foldl_cons]
    by_cases hc : (st.1.items (st.1.order i0)).priority ≠ st.2.2
    · rw [if_pos hc]
      have hsh : ∀ m, prioAt (st.1.ShuffleOrderRange st.2.1 i0 (g st.2.1)) m
          = prioAt st.1 m :=
        prioAt_shuffleOrderRange (g st.2.1) (fun k hk1 hk2 => h3 k hk1 hk2)
      have hres := ih (i0 + 1)
        (st.1.ShuffleOrderRange st.2.1 i0 (g st.2.1), i0,
          (st.1.items (st.1.order i0)).priority)
        (fun k => (hsh k).trans (h1 k))
        (by show i0 < i0 + 1; omega)
        (by
          intro k hk1 hk2
          show prioAt _ k = (st.1.items (st.1.order i0)).priority
          have hk : k = i0 := by
            have : i0 ≤ k := hk1
            omega
          subst hk
          exact hsh k)
      exact ⟨hres.1, by have := hres.2.1; omega,
        fun k hk1 hk2 => hres.2.2 k hk1 (by omega)⟩
    · rw [if_neg hc]
      have hres := ih (i0 + 1) st h1 (by omega)
        (by
          intro k hk1 hk2
          by_cases hk : k < i0
          · exact h3 k hk1 hk
          · have : k = i0 := by omega
            subst this
            exact Classical.byContradiction fun hne => hc fun hcon => hne (by
              show prioAt st.1 k = st.2.2
              exact hcon))
      exact ⟨hres.1, by have := hres.2.1; omega,
        fun k hk1 hk2 => hres.2.2 k hk1 (by omega)⟩

/-- C3 amended: in random mode, running the priority-aware shuffle
ShuffleOrderRangeWithPriority over the whole order array leaves the priority
sequence read along the order array non-increasing (priority groups
contiguous, higher priority earlier). -/
theorem C3_amended_priority_nonincreasing (q : Queue) (g : Nat → Nat → Nat)
    (hr : q.random = true) (i j : Nat) (hij : i ≤ j) (hj : j < q.length) :
    prioAt (q.ShuffleOrderRangeWithPriority 0 q.length g) j ≤
      prioAt (q.ShuffleOrderRangeWithPriority 0 q.length g) i := by
  simp only [Queue.ShuffleOrderRangeWithPriority]
  split_ifs with h0
  · omega
  · set qs := queue_sort_order_by_priority q 0 q.length with hqs
    set F := (List.range' (0 + 1) (q.length - 0 - 1)).foldl (fun st i =>
        if (st.1.items (st.1.order i)).priority ≠ st.2.2
        then (st.1.ShuffleOrderRange st.2.1 i (g st.2.1), i,
              (st.1.items (st.1.order i)).priority)
        else st)
      (qs, 0, (qs.items (qs.order 0)).priority) with hF
    have hfold := groupFold_prioAt g qs (q.length - 0 - 1) (0 + 1)
      (qs, 0, (qs.items (qs.order 0)).priority)
      (fun k => rfl) (by show (0 : Nat) < 0 + 1; omega)
      (fun k hk1 hk2 => by
        have hk1' : 0 ≤ k := hk1
        have hk2' : k < 0 + 1 := hk2
        have hk0 : k = 0 := by omega
        subst hk0
        rfl)
    rw [← hF] at hfold
    have hfin := prioAt_shuffleOrderRange (b := q.length) (g F.2.1)
      (fun k hk1 hk2 => hfold.2.2 k hk1 (by omega))
    rw [hfin i, hfin j, hfold.1 i, hfold.1 j]
    exact sorted_prioAt q 0 q.length i j (Nat.zero_le i) hij hj

/-- Counterexample to C3: in random mode, Append alone does not restore
priority ordering: after appending a priority-5 item behind a priority-0
item the priority sequence along the order array is 0, 5, which is
increasing. -/
theorem C3_counterexample :
    q2hi.random = true ∧ q2hi.length = 2 ∧
    prioAt q2hi 0 = 0 ∧ prioAt q2hi 1 = 5 ∧
    ¬ prioAt q2hi 1 ≤ prioAt q2hi 0 := by
  decide

/-- Witness for C3 amended: the priority-aware shuffle of the concrete
two-item random queue yields a non-increasing priority sequence. -/
theorem C3_amended_priority_nonincreasing_witness :
    (q2hi.random = true ∧ (0 : Nat) ≤ 1 ∧ 1 < q2hi.length) ∧
    prioAt (q2hi.ShuffleOrderRangeWithPriority 0 q2hi.length (fun _ _ => 0)) 1 ≤
      prioAt (q2hi.ShuffleOrderRangeWithPriority 0 q2hi.length (fun _ _ => 0)) 0 :=
  ⟨⟨by decide, by decide, by decide⟩,
    C3_amended_priority_nonincreasing q2hi (fun _ _ => 0) (by decide) 0 1
      (by decide) (by decide)⟩

end MpdQueue
